import Mathlib

/-!
Verification of the core algorithms of the home_n8n repository.

The development shallowly embeds the Python sources:
  * scripts/libs/geospatial_tools.py   (haversine, KML scan, projection-mode nearest point)
  * scripts/two_point_to_route_nearest_v5_sameroute_kml_color.py
                                        (nearest-vertex mode, point-pair optimizer)
  * scripts/libs/osrm_tools.py          (routing-engine HTTP client, retry logic)
  * scripts/libs/routing_solver.py      (one-to-many matrix nearest-router search)
  * scripts/batch_routing_plan_v2.py    (radius pre-filter, simple-mode assignment,
                                         unique-assignment conflict-resolution loop)

Modelling conventions:
  * Python floats are modelled as real numbers (for the trigonometric haversine) or
    as elements of a linearly ordered type `K` (for pure comparison/bookkeeping code);
    witnesses instantiate `K := ℚ` so everything evaluates.
  * The float value `math.inf` is modelled as `⊤ : WithTop K`; finite distances are
    coerced via `WithTop.some`.  This matches float semantics: every finite value is
    `< inf`, and `inf < inf` is false.
  * Network calls (requests.get) are modelled by explicit oracle parameters: a
    function from the attempt index to the outcome of that attempt, or for the
    assignment solver a function from the request data to the parsed response.
  * Python dicts keyed by strings are modelled as association lists in insertion
    order (Python dicts preserve insertion order; updating an existing key keeps
    its position).  Python sets of target tuples are modelled as first-occurrence
    deduplicated lists (only membership, emptiness and iteration are used).
-/

namespace Geospatial

/-- Degrees-to-radians conversion, `math.radians`. -/
noncomputable def radians (x : ℝ) : ℝ := x * Real.pi / 180

/-- The two-argument arctangent `math.atan2 y x` (sign conventions of C `atan2`). -/
noncomputable def atan2 (y x : ℝ) : ℝ :=
  if 0 < x then Real.arctan (y / x)
  else if x < 0 then
    (if 0 ≤ y then Real.arctan (y / x) + Real.pi else Real.arctan (y / x) - Real.pi)
  else
    (if 0 < y then Real.pi / 2 else if y < 0 then -(Real.pi / 2) else 0)

/-- Haversine great-circle distance in meters, from
`scripts/libs/geospatial_tools.py` (function `haversine`); the identical formula is
repeated in `two_point_to_route_nearest_v5_sameroute_kml_color.py`. -/
noncomputable def haversine (lat1 lon1 lat2 lon2 : ℝ) : ℝ :=
  let R : ℝ := 6371000
  let phi1 := radians lat1
  let phi2 := radians lat2
  let dphi := radians (lat2 - lat1)
  let dlambda := radians (lon2 - lon1)
  let a := Real.sin (dphi / 2) ^ 2 +
    Real.cos phi1 * Real.cos phi2 * Real.sin (dlambda / 2) ^ 2
  R * (2 * atan2 (Real.sqrt a) (Real.sqrt (1 - a)))

lemma radians_neg_swap (u v : ℝ) : radians (u - v) = -(radians (v - u)) := by
  unfold radians; ring

lemma atan2_zero_one : atan2 0 1 = 0 := by
  unfold atan2
  rw [if_pos one_pos]
  simp [Real.arctan_zero]

end Geospatial

/-- C9: the haversine distance is symmetric in its two points, and the distance
from a point to itself is zero.  Stated for all real inputs, hence in particular
for all valid latitude/longitude pairs. -/
theorem C9_haversine_symm_self_zero (lat1 lon1 lat2 lon2 : ℝ) :
    Geospatial.haversine lat1 lon1 lat2 lon2 = Geospatial.haversine lat2 lon2 lat1 lon1 ∧
    Geospatial.haversine lat1 lon1 lat1 lon1 = 0 := by
  constructor
  · unfold Geospatial.haversine
    rw [Geospatial.radians_neg_swap lat2 lat1, Geospatial.radians_neg_swap lon2 lon1]
    simp only [neg_div, Real.sin_neg]
    ring_nf
  · unfold Geospatial.haversine
    simp only [sub_self]
    have h0 : Geospatial.radians 0 = 0 := by unfold Geospatial.radians; ring
    rw [h0]
    simp only [zero_div, Real.sin_zero, zero_pow, mul_zero, add_zero, ne_eq,
      OfNat.ofNat_ne_zero, not_false_eq_true, sub_zero, Real.sqrt_zero, Real.sqrt_one]
    rw [Geospatial.atan2_zero_one]
    ring

namespace BatchV2

/-- A helper: a left fold that appends under a predicate equals `filter`
(the Python loop `for x in xs: if p(x): out.append(x)`). -/
lemma foldl_append_filter {α : Type} (p : α → Bool) (l : List α) (acc : List α) :
    l.foldl (fun acc r => if p r then acc ++ [r] else acc) acc = acc ++ l.filter p := by
  induction l generalizing acc with
  | nil => simp
  | cons a l ih =>
    by_cases h : p a <;> simp [List.filter, h, ih, List.append_assoc]

/-- Router record `(Name, Lon, Lat, Type, Priority, Site ID)` from
`batch_routing_plan_v2.py` (`RouterDataFull`, loaded by `load_routers_from_csv`). -/
structure Router (K : Type) where
  name : String
  lon : K
  lat : K
  rtype : String
  priority : Int
  siteId : String
  deriving DecidableEq

/-- Target record `(Name, Lon, Lat)` from `batch_routing_plan_v2.py` (`TargetData`). -/
structure Target (K : Type) where
  name : String
  lon : K
  lat : K
  deriving DecidableEq

/-- Radius pre-filter from `batch_routing_plan_v2.py`, `filter_routers_by_radius`.
The haversine distance function is passed as the parameter `hav` (the source calls
the library `haversine`); the loop appends every router whose distance from the
target is `<= radius_km`. -/
def filter_routers_by_radius {K : Type} [LinearOrder K]
    (hav : K → K → K → K → K) (targetLat targetLon : K)
    (routersList : List (Router K)) (radiusKm : K) : List (Router K) :=
  routersList.foldl
    (fun filtered r =>
      if hav targetLat targetLon r.lat r.lon ≤ radiusKm then filtered ++ [r] else filtered)
    []

lemma filter_routers_by_radius_eq_filter {K : Type} [LinearOrder K]
    (hav : K → K → K → K → K) (targetLat targetLon : K)
    (routersList : List (Router K)) (radiusKm : K) :
    filter_routers_by_radius hav targetLat targetLon routersList radiusKm =
      routersList.filter (fun r => hav targetLat targetLon r.lat r.lon ≤ radiusKm) := by
  unfold filter_routers_by_radius
  simpa using foldl_append_filter
    (fun r => decide (hav targetLat targetLon r.lat r.lon ≤ radiusKm)) routersList []

lemma mem_filter_routers_by_radius {K : Type} [LinearOrder K]
    (hav : K → K → K → K → K) (targetLat targetLon : K)
    (routersList : List (Router K)) (radiusKm : K) (r : Router K) :
    r ∈ filter_routers_by_radius hav targetLat targetLon routersList radiusKm ↔
      r ∈ routersList ∧ hav targetLat targetLon r.lat r.lon ≤ radiusKm := by
  rw [filter_routers_by_radius_eq_filter]
  simp [List.mem_filter]

lemma filter_routers_by_radius_subset {K : Type} [LinearOrder K]
    (hav : K → K → K → K → K) (targetLat targetLon : K)
    (routersList : List (Router K)) (radiusKm : K) :
    ∀ r ∈ filter_routers_by_radius hav targetLat targetLon routersList radiusKm,
      r ∈ routersList := by
  intro r hr
  exact ((mem_filter_routers_by_radius _ _ _ _ _ _).mp hr).1

end BatchV2

/-- C2: the radius pre-filter returns exactly those routers whose haversine distance
to the target point is `≤ radius`, inclusively: a router at distance exactly equal
to the radius satisfies `≤` and is therefore included. -/
theorem C2_radius_filter_inclusive (targetLat targetLon radiusKm : ℝ)
    (routersList : List (BatchV2.Router ℝ)) (r : BatchV2.Router ℝ) :
    r ∈ BatchV2.filter_routers_by_radius Geospatial.haversine
        targetLat targetLon routersList radiusKm ↔
      r ∈ routersList ∧
        Geospatial.haversine targetLat targetLon r.lat r.lon ≤ radiusKm :=
  BatchV2.mem_filter_routers_by_radius Geospatial.haversine
    targetLat targetLon routersList radiusKm r

namespace V5

/-- Nearest-vertex-mode `compute_nearest_point` from
`two_point_to_route_nearest_v5_sameroute_kml_color.py`: scan the route vertices
`(lon, lat)` keeping the one at minimal haversine distance.  `min_distance` starts
at `float('inf')`, modelled `⊤ : WithTop K`; the nearest point is initialised to
the query point itself and returned in `(lon, lat)` order as in the source. -/
def compute_nearest_point {K : Type} [LinearOrder K] (hav : K → K → K → K → K)
    (lat lon : K) (coords : List (K × K)) : WithTop K × (K × K) :=
  coords.foldl
    (fun st pr =>
      let d := hav lat lon pr.2 pr.1
      if (d : WithTop K) < st.1 then ((d : WithTop K), (pr.1, pr.2)) else st)
    (⊤, (lon, lat))

lemma compute_nearest_point_fold_ne_top {K : Type} [LinearOrder K]
    (hav : K → K → K → K → K) (lat lon : K) (coords : List (K × K))
    (st : WithTop K × (K × K)) (hst : st.1 ≠ ⊤) :
    (coords.foldl
      (fun st pr =>
        let d := hav lat lon pr.2 pr.1
        if (d : WithTop K) < st.1 then ((d : WithTop K), (pr.1, pr.2)) else st)
      st).1 ≠ ⊤ := by
  induction coords generalizing st with
  | nil => exact hst
  | cons c rest ih =>
    simp only [List.foldl_cons]
    by_cases h : ((hav lat lon c.2 c.1 : WithTop K) < st.1)
    · rw [if_pos h]
      exact ih _ (by simp)
    · rw [if_neg h]
      exact ih _ hst

/-- With a non-empty vertex list the nearest-vertex search always produces a
finite distance: the very first vertex replaces the `⊤` initialiser. -/
lemma compute_nearest_point_ne_top {K : Type} [LinearOrder K]
    (hav : K → K → K → K → K) (lat lon : K) (coords : List (K × K))
    (hne : coords ≠ []) :
    (compute_nearest_point hav lat lon coords).1 ≠ ⊤ := by
  unfold compute_nearest_point
  match coords, hne with
  | c :: rest, _ =>
    simp only [List.foldl_cons]
    rw [if_pos (by simp [WithTop.coe_lt_top])]
    exact compute_nearest_point_fold_ne_top hav lat lon rest _ (by simp)

/-- Short route name extraction from `find_best_route_for_pair`:
`parts[-2].strip() if len(parts) >= 2 and parts[-2].strip() else parts[-1].strip()`. -/
def shortRouteName (fullName : String) : String :=
  let parts := fullName.splitOn "/"
  let lastPart := (parts.getLast?).getD fullName
  if 2 ≤ parts.length then
    let penult := ((parts.get? (parts.length - 2)).getD "").trim
    if penult ≠ "" then penult else lastPart.trim
  else lastPart.trim

/-- The `best_route_match` dictionary built by `find_best_route_for_pair`. -/
structure BestMatch (K : Type) where
  shortName : String
  fullName : String
  totalDistance : WithTop K
  dist1 : WithTop K
  nearestLat1 : K
  nearestLon1 : K
  dist2 : WithTop K
  nearestLat2 : K
  nearestLon2 : K
  deriving DecidableEq

/-- The match record the optimizer would build for one route: both nearest-point
computations, their distances and the summed score. -/
def routeMatch {K : Type} [LinearOrder K] [Add K] (hav : K → K → K → K → K)
    (lat1 lon1 lat2 lon2 : K) (route : String × List (K × K)) : BestMatch K :=
  let r1 := compute_nearest_point hav lat1 lon1 route.2
  let r2 := compute_nearest_point hav lat2 lon2 route.2
  { shortName := shortRouteName route.1
    fullName := route.1
    totalDistance := r1.1 + r2.1
    dist1 := r1.1
    nearestLat1 := r1.2.2
    nearestLon1 := r1.2.1
    dist2 := r2.1
    nearestLat2 := r2.2.2
    nearestLon2 := r2.2.1 }

/-- The optimisation score of one route: `dist1 + dist2`. -/
def routeScore {K : Type} [LinearOrder K] [Add K] (hav : K → K → K → K → K)
    (lat1 lon1 lat2 lon2 : K) (route : String × List (K × K)) : WithTop K :=
  (compute_nearest_point hav lat1 lon1 route.2).1 +
    (compute_nearest_point hav lat2 lon2 route.2).1

/-- Point-pair optimizer `find_best_route_for_pair` from
`two_point_to_route_nearest_v5_sameroute_kml_color.py`: skip routes with no
coordinates, score each remaining route by `dist1 + dist2`, keep the strict
minimum (first-encountered wins on ties), starting from
`(best_route_match, min_total_distance) = (None, inf)`. -/
def find_best_route_for_pair {K : Type} [LinearOrder K] [Add K]
    (hav : K → K → K → K → K) (lat1 lon1 lat2 lon2 : K)
    (routes : List (String × List (K × K))) : Option (BestMatch K) :=
  (routes.foldl
    (fun (st : Option (BestMatch K) × WithTop K) route =>
      if route.2 = [] then st
      else
        let total := routeScore hav lat1 lon1 lat2 lon2 route
        if total < st.2 then
          (some (routeMatch hav lat1 lon1 lat2 lon2 route), total)
        else st)
    (none, ⊤)).1

lemma routeScore_ne_top {K : Type} [LinearOrder K] [Add K]
    (hav : K → K → K → K → K) (lat1 lon1 lat2 lon2 : K)
    (route : String × List (K × K)) (hne : route.2 ≠ []) :
    routeScore hav lat1 lon1 lat2 lon2 route ≠ ⊤ := by
  unfold routeScore
  have h1 := compute_nearest_point_ne_top hav lat1 lon1 route.2 hne
  have h2 := compute_nearest_point_ne_top hav lat2 lon2 route.2 hne
  exact WithTop.add_ne_top.mpr ⟨h1, h2⟩

end V5

namespace V5

/-- The loop invariant of `find_best_route_for_pair`: either nothing has been kept
and every processed route had an empty coordinate list, or the kept match belongs
to the first processed route attaining the (strictly smallest-so-far) score. -/
def PairFoldInv {K : Type} [LinearOrder K] [Add K] (hav : K → K → K → K → K)
    (lat1 lon1 lat2 lon2 : K) (processed : List (String × List (K × K)))
    (st : Option (BestMatch K) × WithTop K) : Prop :=
  (st.1 = none ∧ st.2 = ⊤ ∧ ∀ r ∈ processed, r.2 = []) ∨
  (∃ m pre r₀ suf, st.1 = some m ∧ st.2 = m.totalDistance ∧
    processed = pre ++ r₀ :: suf ∧ r₀.2 ≠ [] ∧
    m = routeMatch hav lat1 lon1 lat2 lon2 r₀ ∧
    m.totalDistance = routeScore hav lat1 lon1 lat2 lon2 r₀ ∧
    (∀ r ∈ pre, r.2 ≠ [] → m.totalDistance < routeScore hav lat1 lon1 lat2 lon2 r) ∧
    (∀ r ∈ processed, r.2 ≠ [] → m.totalDistance ≤ routeScore hav lat1 lon1 lat2 lon2 r))

lemma pairFold_spec {K : Type} [LinearOrder K] [Add K] (hav : K → K → K → K → K)
    (lat1 lon1 lat2 lon2 : K) :
    ∀ (rem processed : List (String × List (K × K)))
      (st : Option (BestMatch K) × WithTop K),
      PairFoldInv hav lat1 lon1 lat2 lon2 processed st →
      PairFoldInv hav lat1 lon1 lat2 lon2 (processed ++ rem)
        (rem.foldl
          (fun st route =>
            if route.2 = [] then st
            else
              let total := routeScore hav lat1 lon1 lat2 lon2 route
              if total < st.2 then
                (some (routeMatch hav lat1 lon1 lat2 lon2 route), total)
              else st)
          st) := by
  intro rem
  induction rem with
  | nil => intro processed st h; simpa using h
  | cons r rem ih =>
    intro processed st h
    have hassoc : processed ++ r :: rem = (processed ++ [r]) ++ rem := by simp
    rw [hassoc, List.foldl_cons]
    apply ih
    by_cases hre : r.2 = []
    · rw [if_pos hre]
      rcases h with ⟨h1, h2, h3⟩ | ⟨m, pre, r₀, suf, h1, h2, h3, h4, h5, h6, h7, h8⟩
      · left
        refine ⟨h1, h2, ?_⟩
        intro x hx
        rcases List.mem_append.mp hx with hx | hx
        · exact h3 x hx
        · simp at hx; subst hx; exact hre
      · right
        refine ⟨m, pre, r₀, suf ++ [r], h1, h2, by simp [h3], h4, h5, h6, h7, ?_⟩
        intro x hx hxne
        rcases List.mem_append.mp hx with hx | hx
        · exact h8 x hx hxne
        · simp at hx; subst hx; exact absurd hre hxne
    · rw [if_neg hre]
      have hscore := routeScore_ne_top hav lat1 lon1 lat2 lon2 r hre
      rcases h with ⟨h1, h2, h3⟩ | ⟨m, pre, r₀, suf, h1, h2, h3, h4, h5, h6, h7, h8⟩
      · rw [h2, if_pos (lt_top_iff_ne_top.mpr hscore)]
        right
        refine ⟨routeMatch hav lat1 lon1 lat2 lon2 r, processed, r, [],
          rfl, ?_, by simp, hre, rfl, ?_, ?_, ?_⟩
        · simp [routeMatch, routeScore]
        · simp [routeMatch, routeScore]
        · intro x hx hxne
          exact absurd (h3 x hx) hxne
        · intro x hx hxne
          rcases List.mem_append.mp hx with hx | hx
          · exact absurd (h3 x hx) hxne
          · simp at hx; subst hx
            simp [routeMatch, routeScore]
      · rw [h2]
        by_cases hlt : routeScore hav lat1 lon1 lat2 lon2 r < m.totalDistance
        · rw [if_pos hlt]
          right
          refine ⟨routeMatch hav lat1 lon1 lat2 lon2 r, processed, r, [],
            rfl, ?_, by simp, hre, rfl, ?_, ?_, ?_⟩
          · simp [routeMatch, routeScore]
          · simp [routeMatch, routeScore]
          · intro x hx hxne
            calc (routeMatch hav lat1 lon1 lat2 lon2 r).totalDistance
                = routeScore hav lat1 lon1 lat2 lon2 r := by simp [routeMatch, routeScore]
              _ < m.totalDistance := hlt
              _ ≤ routeScore hav lat1 lon1 lat2 lon2 x := h8 x hx hxne
          · intro x hx hxne
            rcases List.mem_append.mp hx with hx | hx
            · refine le_of_lt ?_
              calc (routeMatch hav lat1 lon1 lat2 lon2 r).totalDistance
                  = routeScore hav lat1 lon1 lat2 lon2 r := by simp [routeMatch, routeScore]
                _ < m.totalDistance := hlt
                _ ≤ routeScore hav lat1 lon1 lat2 lon2 x := h8 x hx hxne
            · simp at hx; subst hx
              simp [routeMatch, routeScore]
        · rw [if_neg hlt]
          right
          refine ⟨m, pre, r₀, suf ++ [r], h1, h2, by simp [h3], h4, h5, h6, h7, ?_⟩
          intro x hx hxne
          rcases List.mem_append.mp hx with hx | hx
          · exact h8 x hx hxne
          · simp at hx; subst hx
            exact le_of_not_lt hlt

end V5

/-- C8: the point-pair optimizer returns, for a non-trivial route list, the first
route minimizing `dist1 + dist2` (strictly earlier candidate routes have strictly
larger scores, so the first-encountered route wins exact ties), together with both
nearest points and both component distances (the `routeMatch` record); for an
empty route list it returns the no-match sentinel `none` rather than failing. -/
theorem C8_pair_optimizer {K : Type} [LinearOrder K] [Add K]
    (hav : K → K → K → K → K) (lat1 lon1 lat2 lon2 : K)
    (routes : List (String × List (K × K))) :
    (routes = [] →
      V5.find_best_route_for_pair hav lat1 lon1 lat2 lon2 routes = none) ∧
    (∀ m, V5.find_best_route_for_pair hav lat1 lon1 lat2 lon2 routes = some m →
      ∃ pre r₀ suf, routes = pre ++ r₀ :: suf ∧ r₀.2 ≠ [] ∧
        m = V5.routeMatch hav lat1 lon1 lat2 lon2 r₀ ∧
        m.totalDistance = V5.routeScore hav lat1 lon1 lat2 lon2 r₀ ∧
        (∀ r ∈ pre, r.2 ≠ [] →
          m.totalDistance < V5.routeScore hav lat1 lon1 lat2 lon2 r) ∧
        (∀ r ∈ routes, r.2 ≠ [] →
          m.totalDistance ≤ V5.routeScore hav lat1 lon1 lat2 lon2 r)) ∧
    ((∃ r ∈ routes, r.2 ≠ []) →
      (V5.find_best_route_for_pair hav lat1 lon1 lat2 lon2 routes).isSome) := by
  have hspec := V5.pairFold_spec hav lat1 lon1 lat2 lon2 routes [] (none, ⊤)
    (Or.inl ⟨rfl, rfl, by simp⟩)
  simp only [List.nil_append] at hspec
  refine ⟨?_, ?_, ?_⟩
  · intro h; subst h; rfl
  · intro m hm
    unfold V5.find_best_route_for_pair at hm
    rcases hspec with ⟨h1, _, _⟩ | ⟨m', pre, r₀, suf, h1, h2, h3, h4, h5, h6, h7, h8⟩
    · rw [hm] at h1; exact absurd h1 (by simp)
    · rw [hm] at h1
      obtain rfl : m' = m := by injection h1.symm
      exact ⟨pre, r₀, suf, h3, h4, h5, h6, h7, h8⟩
  · rintro ⟨r, hr, hrne⟩
    unfold V5.find_best_route_for_pair
    rcases hspec with ⟨_, _, h3⟩ | ⟨m', _, _, _, h1, _⟩
    · exact absurd (h3 r hr) hrne
    · rw [h1]; rfl

/-- Witness for C8 at a concrete rational input: one route with a vertex, so the
optimizer returns a match. -/
theorem C8_pair_optimizer_witness :
    (∃ r ∈ [("F/A", [((1 : ℚ), (2 : ℚ))])], r.2 ≠ []) ∧
      (V5.find_best_route_for_pair (fun _ _ _ _ => (0 : ℚ)) 0 0 0 0
        [("F/A", [((1 : ℚ), (2 : ℚ))])]).isSome :=
  ⟨by simp, (C8_pair_optimizer (fun _ _ _ _ => (0 : ℚ)) 0 0 0 0
    [("F/A", [((1 : ℚ), (2 : ℚ))])]).2.2 (by simp)⟩

namespace Geospatial

/-- Squared Euclidean distance in the `(lon, lat)` plane, used by the shapely
nearest-point computation model. -/
def sqDist {K : Type} [LinearOrderedField K] (p q : K × K) : K :=
  (p.1 - q.1) * (p.1 - q.1) + (p.2 - q.2) * (p.2 - q.2)

/-- Closest point of a segment `[a, b]` to `p` in the plane: clamped orthogonal
projection; a zero-length segment yields its endpoint. -/
def closestPointOnSegment {K : Type} [LinearOrderedField K] (p a b : K × K) : K × K :=
  let dx := b.1 - a.1
  let dy := b.2 - a.2
  let len2 := dx * dx + dy * dy
  if len2 = 0 then a
  else
    let t := ((p.1 - a.1) * dx + (p.2 - a.2) * dy) / len2
    let tc := max 0 (min 1 t)
    (a.1 + tc * dx, a.2 + tc * dy)

/-- Nearest point of the polyline through `coords` to `p`, seen as planar
geometry in `(lon, lat)` coordinates.  This models
`line.interpolate(line.project(p))` of shapely: the candidate points are the
clamped projections onto each segment and the closest one wins. -/
def nearestPointOnPolyline {K : Type} [LinearOrderedField K]
    (p : K × K) (coords : List (K × K)) : K × K :=
  match coords.zip coords.tail with
  | [] => (0, 0)
  | s :: segs =>
    segs.foldl
      (fun best seg =>
        let c := closestPointOnSegment p seg.1 seg.2
        if sqDist p c < sqDist p best then c else best)
      (closestPointOnSegment p s.1 s.2)

/-- A LineString is degenerate (shapely `not line.is_valid or line.is_empty`)
when all of its points coincide, i.e. it has zero length. -/
def lineStringDegenerate {K : Type} [DecidableEq K] : List (K × K) → Bool
  | [] => true
  | c :: rest => rest.all (fun q => q = c)

/-- Projection-mode `compute_nearest_point` from
`scripts/libs/geospatial_tools.py`: fewer than 2 points, or a degenerate
LineString, yields `(inf, (0, 0))` (`MAX_DISTANCE = float('inf')`, modelled `⊤`);
otherwise the query point `(lon, lat)` is projected onto the polyline with
shapely and the haversine distance from the query to the projected point is
returned together with the point as `(nearest_lat, nearest_lon)`. -/
def compute_nearest_point {K : Type} [LinearOrderedField K]
    (hav : K → K → K → K → K) (lat lon : K) (coords : List (K × K)) :
    WithTop K × (K × K) :=
  if coords.length < 2 then (⊤, (0, 0))
  else if lineStringDegenerate coords then (⊤, (0, 0))
  else
    let np := nearestPointOnPolyline (lon, lat) coords
    let nearestLon := np.1
    let nearestLat := np.2
    ((hav lat lon nearestLat nearestLon : WithTop K), (nearestLat, nearestLon))

end Geospatial

/-- C3 counterexample: in projection mode, the non-empty single-point coordinate
list `[(0, 0)]` hits the `len(coords) < 2` guard of
`geospatial_tools.compute_nearest_point` and yields the infinite sentinel, not a
finite distance — refuting the claim that both modes produce a finite distance
for every non-empty coordinate list. -/
theorem C3_counterexample :
    ([((0 : ℝ), (0 : ℝ))] ≠ []) ∧
      (Geospatial.compute_nearest_point Geospatial.haversine 0 0
        [((0 : ℝ), (0 : ℝ))]).1 = ⊤ := by
  constructor
  · simp
  · unfold Geospatial.compute_nearest_point
    norm_num

/-- C3 (amended): nearest-vertex mode produces a finite distance for every
non-empty coordinate list, while projection mode produces a finite distance only
for polylines with at least two points that are not all coincident — a non-empty
list with fewer than two points (or with all points equal) yields the infinite
sentinel `⊤` instead. -/
theorem C3_nearest_point_finiteness {K : Type} [LinearOrderedField K]
    (hav : K → K → K → K → K) (lat lon : K) (coords : List (K × K)) :
    (coords ≠ [] → (V5.compute_nearest_point hav lat lon coords).1 ≠ ⊤) ∧
    ((∃ p ∈ coords, ∃ q ∈ coords, p ≠ q) →
      (Geospatial.compute_nearest_point hav lat lon coords).1 ≠ ⊤) ∧
    (∀ c : K × K, (Geospatial.compute_nearest_point hav lat lon [c]).1 = ⊤) := by
  refine ⟨fun hne => V5.compute_nearest_point_ne_top hav lat lon coords hne, ?_, ?_⟩
  · rintro ⟨p, hp, q, hq, hpq⟩
    have hlen : ¬ coords.length < 2 := by
      match coords, hp, hq with
      | [c], hp, hq =>
        simp only [List.mem_singleton] at hp hq
        exact absurd (hp.trans hq.symm) hpq
      | c1 :: c2 :: rest, _, _ => simp
    have hdeg : Geospatial.lineStringDegenerate coords = false := by
      match coords, hp, hq with
      | c :: rest, hp, hq =>
        by_contra hall
        simp only [Bool.not_eq_false, Geospatial.lineStringDegenerate,
          List.all_eq_true, decide_eq_true_eq] at hall
        have hmem : ∀ x ∈ c :: rest, x = c := by
          intro x hx
          rcases List.mem_cons.mp hx with h | h
          · exact h
          · exact hall x h
        exact hpq ((hmem p hp).trans (hmem q hq).symm)
    unfold Geospatial.compute_nearest_point
    rw [if_neg hlen, if_neg (by simp [hdeg])]
    simp
  · intro c
    unfold Geospatial.compute_nearest_point
    norm_num

/-- Witness for C3 at a concrete rational input: a two-point polyline is finite
in both modes. -/
theorem C3_nearest_point_finiteness_witness :
    (([((0 : ℚ), 0), (1, 0)] : List (ℚ × ℚ)) ≠ [] ∧
      (∃ p ∈ ([((0 : ℚ), 0), (1, 0)] : List (ℚ × ℚ)),
        ∃ q ∈ ([((0 : ℚ), 0), (1, 0)] : List (ℚ × ℚ)), p ≠ q)) ∧
    (V5.compute_nearest_point (fun _ _ _ _ => (0 : ℚ)) 0 0 [(0, 0), (1, 0)]).1 ≠ ⊤ ∧
    (Geospatial.compute_nearest_point (fun _ _ _ _ => (0 : ℚ)) 0 0
      [(0, 0), (1, 0)]).1 ≠ ⊤ := by
  have h := C3_nearest_point_finiteness (fun _ _ _ _ => (0 : ℚ)) 0 0 [(0, 0), (1, 0)]
  exact ⟨⟨by simp, ⟨(0, 0), by simp, (1, 0), by simp, by decide⟩⟩,
    h.1 (by simp), h.2.1 ⟨(0, 0), by simp, (1, 0), by simp, by decide⟩⟩

namespace OsrmTools

/-- Outcome of one HTTP attempt: a `requests` exception (connection error or bad
HTTP status raised by `raise_for_status`), or a parsed JSON response. -/
inductive HttpAttempt (α : Type) where
  | netError : HttpAttempt α
  | ok (resp : α) : HttpAttempt α
  deriving DecidableEq

/-- One route of an OSRM `/route` JSON response: its `distance` field (meters,
possibly absent) and its `geometry.coordinates`. -/
structure OsrmRoute where
  distance : Option ℚ
  geometry : List (ℚ × ℚ)
  deriving DecidableEq

/-- A parsed OSRM `/route` JSON response: `code` and `routes`. -/
structure OsrmRouteResponse where
  code : String
  routes : List OsrmRoute
  deriving DecidableEq

/-- A parsed OSRM `/table` JSON response: `code` and the distance matrix. -/
structure OsrmTableResponse where
  code : String
  distances : List (List ℚ)
  deriving DecidableEq

/-- The default `max_retries` parameter of `get_osrm_route` in
`scripts/libs/osrm_tools.py`. -/
def defaultMaxRetries : Nat := 5

/-- The retry loop of `get_osrm_route`: `attemptsLeft` attempts remain and
`attemptIndex` attempts were already made.  A network failure sleeps 1 second
and moves to the next attempt; a received response is definitive (never
retried): non-`"Ok"` code, missing routes, missing distance or empty geometry
give `(None, None)`, otherwise the geometry and `distance/1000` are returned.
The second component of the result counts the attempts performed. -/
def routeAttempts (net : Nat → HttpAttempt OsrmRouteResponse) :
    Nat → Nat → (Option (List (ℚ × ℚ)) × Option ℚ) × Nat
  | 0, attemptIndex => ((none, none), attemptIndex)
  | attemptsLeft + 1, attemptIndex =>
    match net attemptIndex with
    | .netError => routeAttempts net attemptsLeft (attemptIndex + 1)
    | .ok resp =>
      if resp.code ≠ "Ok" then ((none, none), attemptIndex + 1)
      else
        match resp.routes with
        | [] => ((none, none), attemptIndex + 1)
        | route :: _ =>
          match route.distance with
          | none => ((none, none), attemptIndex + 1)
          | some distanceM =>
            if route.geometry = [] then ((none, none), attemptIndex + 1)
            else ((some route.geometry, some (distanceM / 1000)), attemptIndex + 1)

/-- Embedding of `get_osrm_route` from `scripts/libs/osrm_tools.py`: identical
start and end coordinates short-circuit without any network call; otherwise up
to `maxRetries` attempts are made, retrying only on network failure. -/
def get_osrm_route (net : Nat → HttpAttempt OsrmRouteResponse)
    (startCoords endCoords : ℚ × ℚ) (maxRetries : Nat) :
    (Option (List (ℚ × ℚ)) × Option ℚ) × Nat :=
  if startCoords = endCoords then ((none, none), 0)
  else routeAttempts net maxRetries 0

/-- Embedding of `get_route_distance` from `scripts/libs/osrm_tools.py`: a
single request (no retry loop in the source).  Only attempt `0` of the network
oracle is ever consulted. -/
def get_route_distance (net : Nat → HttpAttempt OsrmRouteResponse)
    (startCoords endCoords : ℚ × ℚ) : Option ℚ :=
  match net 0 with
  | .netError => none
  | .ok resp =>
    if resp.code ≠ "Ok" ∨ resp.routes = [] then none
    else
      match resp.routes with
      | [] => none
      | route :: _ =>
        match route.distance with
        | some distanceM => some (distanceM / 1000)
        | none => none

/-- Embedding of `get_route_distances_table` from `scripts/libs/osrm_tools.py`:
a single `/table` request (no retry loop in the source); a non-`"Ok"` code or an
empty first matrix row gives `None`, otherwise the row is converted from meters
to kilometers. -/
def get_route_distances_table (net : Nat → HttpAttempt OsrmTableResponse)
    (startCoords : ℚ × ℚ) (destCoordsList : List (ℚ × ℚ)) : Option (List ℚ) :=
  match net 0 with
  | .netError => none
  | .ok resp =>
    if resp.code ≠ "Ok" then none
    else
      let distancesM := resp.distances.headD []
      if distancesM = [] then none
      else some (distancesM.map (fun d => d / 1000))

lemma routeAttempts_all_fail (net : Nat → HttpAttempt OsrmRouteResponse) :
    ∀ (attemptsLeft attemptIndex : Nat),
      (∀ n, attemptIndex ≤ n → n < attemptIndex + attemptsLeft → net n = .netError) →
      routeAttempts net attemptsLeft attemptIndex =
        ((none, none), attemptIndex + attemptsLeft) := by
  intro attemptsLeft
  induction attemptsLeft with
  | zero => intro attemptIndex _; simp [routeAttempts]
  | succ k ih =>
    intro attemptIndex hfail
    have h0 : net attemptIndex = .netError :=
      hfail attemptIndex (le_refl _) (by omega)
    rw [routeAttempts, h0]
    rw [ih (attemptIndex + 1) (fun n h1 h2 => hfail n (by omega) (by omega))]
    have harith : attemptIndex + 1 + k = attemptIndex + (k + 1) := by omega
    rw [harith]

lemma routeAttempts_nonOk (net : Nat → HttpAttempt OsrmRouteResponse) :
    ∀ (k attemptsLeft attemptIndex : Nat) (resp : OsrmRouteResponse),
      k < attemptsLeft →
      (∀ n, attemptIndex ≤ n → n < attemptIndex + k → net n = .netError) →
      net (attemptIndex + k) = .ok resp →
      resp.code ≠ "Ok" →
      routeAttempts net attemptsLeft attemptIndex =
        ((none, none), attemptIndex + k + 1) := by
  intro k
  induction k with
  | zero =>
    intro attemptsLeft attemptIndex resp hk _ hok hcode
    obtain ⟨m, rfl⟩ : ∃ m, attemptsLeft = m + 1 := ⟨attemptsLeft - 1, by omega⟩
    rw [routeAttempts]
    simp only [Nat.add_zero] at hok
    rw [hok]
    simp [hcode]
  | succ j ih =>
    intro attemptsLeft attemptIndex resp hk hfail hok hcode
    obtain ⟨m, rfl⟩ : ∃ m, attemptsLeft = m + 1 := ⟨attemptsLeft - 1, by omega⟩
    have h0 : net attemptIndex = .netError :=
      hfail attemptIndex (le_refl _) (by omega)
    rw [routeAttempts, h0]
    have hrec := ih m (attemptIndex + 1) resp (by omega)
      (fun n h1 h2 => hfail n (by omega) (by omega))
      (by rw [show attemptIndex + 1 + j = attemptIndex + (j + 1) by omega]; exact hok)
      hcode
    rw [hrec]
    have harith : attemptIndex + 1 + j + 1 = attemptIndex + (j + 1) + 1 := by omega
    rw [harith]

end OsrmTools

/-- C6 counterexample: with a network oracle whose attempt 0 fails and whose
attempt 1 would succeed (`code = "Ok"`, one route of 1000 m with geometry), the
point-to-point distance shape `get_route_distance` and the matrix shape
`get_route_distances_table` return the failure value `none` without ever
retrying, while the route shape `get_osrm_route` retries and succeeds on its
second attempt with the same oracle — so not every call shape retries transient
failures up to the 5-attempt maximum. -/
theorem C6_counterexample :
    (OsrmTools.get_route_distance
        (fun n => if n = 0 then .netError
          else .ok ⟨"Ok", [⟨some 1000, [(0, 0), (1, 1)]⟩]⟩)
        (0, 0) (1, 1) = none) ∧
    (OsrmTools.get_route_distances_table
        (fun n => if n = 0 then .netError else .ok ⟨"Ok", [[1000]]⟩)
        (0, 0) [(1, 1)] = none) ∧
    (OsrmTools.get_osrm_route
        (fun n => if n = 0 then .netError
          else .ok ⟨"Ok", [⟨some 1000, [(0, 0), (1, 1)]⟩]⟩)
        (0, 0) (1, 1) OsrmTools.defaultMaxRetries =
      ((some [(0, 0), (1, 1)], some (1000 / 1000)), 2)) ∧
    ((1000 : ℚ) / 1000 = 1) := by
  refine ⟨rfl, rfl, rfl, by norm_num⟩

/-- C6 (amended): only the point-to-point route shape `get_osrm_route` retries:
it makes up to `maxRetries` attempts (default 5) with a 1-second sleep after
each network failure, returns the failure value only after exhausting all
attempts, and treats any received response — in particular one whose code is
not `"Ok"` — as definitive, never retrying it.  The point-to-point distance
shape `get_route_distance` and the one-to-many matrix shape
`get_route_distances_table` perform exactly one attempt: their result depends
only on attempt `0` of the network oracle, and a network failure there
immediately yields `none`. -/
theorem C6_retry_policy (net : Nat → OsrmTools.HttpAttempt OsrmTools.OsrmRouteResponse)
    (nett : Nat → OsrmTools.HttpAttempt OsrmTools.OsrmTableResponse)
    (startC endC : ℚ × ℚ) (dests : List (ℚ × ℚ)) (maxRetries k : Nat)
    (resp : OsrmTools.OsrmRouteResponse) :
    OsrmTools.defaultMaxRetries = 5 ∧
    (startC ≠ endC → (∀ n, n < maxRetries → net n = .netError) →
      OsrmTools.get_osrm_route net startC endC maxRetries =
        ((none, none), maxRetries)) ∧
    (startC ≠ endC → k < maxRetries → (∀ n, n < k → net n = .netError) →
      net k = .ok resp → resp.code ≠ "Ok" →
      OsrmTools.get_osrm_route net startC endC maxRetries =
        ((none, none), k + 1)) ∧
    (net 0 = .netError →
      OsrmTools.get_route_distance net startC endC = none) ∧
    (∀ net2, net 0 = net2 0 →
      OsrmTools.get_route_distance net startC endC =
        OsrmTools.get_route_distance net2 startC endC) ∧
    (nett 0 = .netError →
      OsrmTools.get_route_distances_table nett startC dests = none) ∧
    (∀ nett2, nett 0 = nett2 0 →
      OsrmTools.get_route_distances_table nett startC dests =
        OsrmTools.get_route_distances_table nett2 startC dests) := by
  refine ⟨rfl, ?_, ?_, ?_, ?_, ?_, ?_⟩
  · intro hne hfail
    rw [OsrmTools.get_osrm_route, if_neg hne]
    simpa using OsrmTools.routeAttempts_all_fail net maxRetries 0
      (fun n _ h2 => hfail n (by omega))
  · intro hne hk hfail hok hcode
    rw [OsrmTools.get_osrm_route, if_neg hne]
    simpa using OsrmTools.routeAttempts_nonOk net k maxRetries 0 resp hk
      (fun n _ h2 => hfail n (by omega)) (by simpa using hok) hcode
  · intro h0
    rw [OsrmTools.get_route_distance, h0]
  · intro net2 h0
    rw [OsrmTools.get_route_distance, OsrmTools.get_route_distance, h0]
  · intro h0
    rw [OsrmTools.get_route_distances_table, h0]
  · intro nett2 h0
    rw [OsrmTools.get_route_distances_table, OsrmTools.get_route_distances_table, h0]

/-- Witness for C6 at concrete inputs: an always-failing oracle exhausts the
default 5 attempts of `get_osrm_route`, and the same oracle makes
`get_route_distance` fail after its single attempt. -/
theorem C6_retry_policy_witness :
    (((0 : ℚ), (0 : ℚ)) ≠ ((1 : ℚ), (1 : ℚ))) ∧
    (OsrmTools.get_osrm_route (fun _ => .netError) (0, 0) (1, 1) 5 =
      ((none, none), 5)) ∧
    (OsrmTools.get_route_distance (fun _ => .netError) (0, 0) (1, 1) = none) := by
  have h := C6_retry_policy (fun _ => .netError) (fun _ => .netError)
    (0, 0) (1, 1) [] 5 0 ⟨"Ok", []⟩
  exact ⟨by decide, h.2.1 (by decide) (fun n _ => rfl), h.2.2.2.1 rfl⟩

namespace BatchV2

/-- The `Status` strings of assignment result dictionaries in
`batch_routing_plan_v2.py`. -/
inductive AssignStatus where
  | success
  | noRouterInRadius
  | osrmRouteFailed
  | notAssignedAfterLoop
  deriving DecidableEq

/-- The literal status strings of the source. -/
def statusText : AssignStatus → String
  | .success => "Success"
  | .noRouterInRadius => "No router in radius"
  | .osrmRouteFailed => "OSRM Route Failed"
  | .notAssignedAfterLoop => "Not Assigned after Loop"

/-- The `best_router_info` dictionary returned by
`find_nearest_router_by_osrm_route_table` in `scripts/libs/routing_solver.py`. -/
structure BestRouterInfo (K : Type) where
  name : String
  lat : K
  lon : K
  rtype : String
  priority : Int
  siteId : String
  distanceKm : K
  deriving DecidableEq

/-- Embedding of `find_nearest_router_by_osrm_route_table` from
`scripts/libs/routing_solver.py`.  The single OSRM `/table` call
(`get_route_distances_table`) is abstracted by the oracle `table`, which maps
the start coordinate and destination coordinates to the optional list of
distances in km.  `min_distance` starts at `float('inf')` (`⊤`); the source
walks `enumerate(distances_km_list)` indexing `routers_list[i]`, modelled by
folding over `distances.zip routersList` (OSRM returns one distance per
destination, so the two lists have equal length). -/
def find_nearest_router_by_osrm_route_table {K : Type} [LinearOrder K]
    (table : (K × K) → List (K × K) → Option (List K))
    (targetBsLat targetBsLon : K) (routersList : List (Router K)) :
    Option (BestRouterInfo K) :=
  match table (targetBsLon, targetBsLat) (routersList.map (fun r => (r.lon, r.lat))) with
  | none => none
  | some distancesKmList =>
    ((distancesKmList.zip routersList).foldl
      (fun st p =>
        if (p.1 : WithTop K) < st.1 then
          ((p.1 : WithTop K),
            some ⟨p.2.name, p.2.lat, p.2.lon, p.2.rtype, p.2.priority, p.2.siteId, p.1⟩)
        else st)
      ((⊤ : WithTop K), none)).2

/-- One assignment-result dictionary of `batch_routing_plan_v2.py`.  The
`Nearest_Router_*` and `Router_*` columns are `nearest` (`none` models the
string `'N/A'` in every one of them), `Route_Distance_KM` is `routeDistanceKm`
(`none` models `'N/A'`), and the temporary bookkeeping keys `Router_Key` and
`Distance` (`math.inf` on failure) are `routerKey` and `distance`. -/
structure AssignResult (K : Type) where
  bsName : String
  bsLat : K
  bsLon : K
  nearest : Option (BestRouterInfo K)
  routeDistanceKm : Option K
  status : AssignStatus
  routerKey : Option String
  distance : WithTop K
  deriving DecidableEq

/-- Embedding of `find_best_router_for_target` from `batch_routing_plan_v2.py`:
radius pre-filter, then the matrix-based nearest-router search; an empty filter
result gives status `No router in radius`, a failed or empty matrix result gives
status `OSRM Route Failed`, both with distance `'N/A'` (`none`) and
`Distance = math.inf` (`⊤`). -/
def find_best_router_for_target {K : Type} [LinearOrder K]
    (hav : K → K → K → K → K) (table : (K × K) → List (K × K) → Option (List K))
    (bsName : String) (bsLat bsLon : K)
    (routersListFull : List (Router K)) (radiusKm : K) : AssignResult K :=
  if filter_routers_by_radius hav bsLat bsLon routersListFull radiusKm = [] then
    ⟨bsName, bsLat, bsLon, none, none, .noRouterInRadius, none, ⊤⟩
  else
    match find_nearest_router_by_osrm_route_table table bsLat bsLon
      (filter_routers_by_radius hav bsLat bsLon routersListFull radiusKm) with
    | some info =>
      ⟨bsName, bsLat, bsLon, some info, some info.distanceKm, .success,
        some info.name, (info.distanceKm : WithTop K)⟩
    | none =>
      ⟨bsName, bsLat, bsLon, none, none, .osrmRouteFailed, none, ⊤⟩

/-- Lookup in an insertion-ordered association list (Python `key in dict` /
`dict[key]`). -/
def assocFind {A : Type} : List (String × A) → String → Option A
  | [], _ => none
  | (k2, v) :: rest, k => if k2 = k then some v else assocFind rest k

/-- Replace the value stored at a key, keeping its position (Python
`dict[key] = value` on an existing key). -/
def assocReplace {A : Type} : List (String × A) → String → A → List (String × A)
  | [], _, _ => []
  | (k2, v2) :: rest, k, v =>
    if k2 = k then (k, v) :: rest else (k2, v2) :: assocReplace rest k v

/-- Python `dict[key] = value`: replace in place when present, append when new. -/
def insertAssoc {A : Type} (m : List (String × A)) (k : String) (v : A) :
    List (String × A) :=
  match assocFind m k with
  | none => m ++ [(k, v)]
  | some _ => assocReplace m k v

/-- Conflict resolution inside a round (`potential_assignments_map` update):
keep, per router key, the nominating target with the strictly smaller distance;
the incumbent wins ties. -/
def updatePotential {K : Type} [LinearOrder K] (m : List (String × AssignResult K))
    (routerKey : String) (result : AssignResult K) : List (String × AssignResult K) :=
  match assocFind m routerKey with
  | none => m ++ [(routerKey, result)]
  | some existingBest =>
    if result.distance < existingBest.distance then assocReplace m routerKey result else m

/-- Python truthiness of the `Router_Key` value: `None` and `""` are falsy. -/
def truthyKey : Option String → Bool
  | none => false
  | some s => decide (s ≠ "")

/-- One full-assignment pass of the conflict-resolution loop over all currently
unassigned targets, building `potential_assignments_map` in insertion order
(the `result` of `find_best_router_for_target` enters the map only when its
status is `Success` and its `Router_Key` is truthy). -/
def crRound {K : Type} [LinearOrder K]
    (hav : K → K → K → K → K) (table : (K × K) → List (K × K) → Option (List K))
    (radiusKm : K) (availableRouters : List (Router K))
    (unassignedTargets : List (Target K)) : List (String × AssignResult K) :=
  unassignedTargets.foldl
    (fun m t =>
      if (find_best_router_for_target hav table t.name t.lat t.lon availableRouters
            radiusKm).status = .success ∧
          truthyKey (find_best_router_for_target hav table t.name t.lat t.lon
            availableRouters radiusKm).routerKey then
        updatePotential m
          ((find_best_router_for_target hav table t.name t.lat t.lon availableRouters
            radiusKm).routerKey.getD "")
          (find_best_router_for_target hav table t.name t.lat t.lon availableRouters
            radiusKm)
      else m)
    []

/-- Helper for first-occurrence deduplication: keep each element not seen
before, tracking seen elements in an accumulator (structural recursion, so the
definition evaluates). -/
def dedupFAux {α : Type} [DecidableEq α] : List α → List α → List α
  | [], _ => []
  | a :: l, seen =>
    if a ∈ seen then dedupFAux l seen else a :: dedupFAux l (a :: seen)

/-- First-occurrence deduplication, modelling the Python set
`targets_processed_in_loop` (a set of target tuples; only membership and
iteration are used). -/
def dedupF {α : Type} [DecidableEq α] (l : List α) : List α := dedupFAux l []

/-- The mutable state of the conflict-resolution while-loop:
`unassigned_targets`, `final_results` (a dict keyed by target name) and
`assigned_router_keys`. -/
structure CRState (K : Type) where
  unassignedTargets : List (Target K)
  finalResults : List (String × AssignResult K)
  assignedRouterKeys : List String

/-- Observable data of one executed round (a loop iteration that reached the
assignment phase): the available router pool it used and what it committed. -/
structure RoundInfo (K : Type) where
  availableRouters : List (Router K)
  committedRouterKeys : List String
  committedTargetNames : List String

/-- The available-router pool of a round: the full router list minus the
already-assigned router keys (`r[0] not in assigned_router_keys`). -/
def crAvailable {K : Type} (routersListFull : List (Router K))
    (assignedRouterKeys : List String) : List (Router K) :=
  routersListFull.filter (fun r => decide (r.name ∉ assignedRouterKeys))

/-- The commit step of a round: write every surviving potential assignment into
`final_results` under its target name (`final_results[bs_name] = final_res`). -/
def crCommit {K : Type} (pmap : List (String × AssignResult K))
    (finalResults : List (String × AssignResult K)) :
    List (String × AssignResult K) :=
  pmap.foldl (fun fr p => insertAssoc fr p.2.bsName p.2) finalResults

/-- The next round's unassigned-target list: the processed set (first-occurrence
deduplicated) minus the targets whose name was newly assigned. -/
def crNextUnassigned {K : Type} [DecidableEq K] (unassignedTargets : List (Target K))
    (newlyAssignedNames : List String) : List (Target K) :=
  (dedupF unassignedTargets).filter (fun t => decide (t.name ∉ newlyAssignedNames))

/-- The while-loop of `run_conflict_resolution_assignment`, instrumented to
return the per-round trace.  `fuel` bounds the recursion; the caller passes
`|targets| + 1` which is provably sufficient because every continuing round
strictly shrinks the unassigned list.  An iteration stops before the assignment
phase when no target is unassigned or no router is available; an iteration whose
round commits nothing breaks leaving the state unchanged (in the source the
commit loop over an empty map is a no-op and `unassigned_targets` is not
updated before the break). -/
def crLoopFuel {K : Type} [LinearOrder K]
    (hav : K → K → K → K → K) (table : (K × K) → List (K × K) → Option (List K))
    (radiusKm : K) (routersListFull : List (Router K)) :
    Nat → CRState K → List (RoundInfo K) × CRState K
  | 0, s => ([], s)
  | fuel + 1, s =>
    if s.unassignedTargets = [] then ([], s)
    else if crAvailable routersListFull s.assignedRouterKeys = [] then ([], s)
    else if crRound hav table radiusKm (crAvailable routersListFull s.assignedRouterKeys)
        s.unassignedTargets = [] then
      ([⟨crAvailable routersListFull s.assignedRouterKeys, [], []⟩], s)
    else
      (⟨crAvailable routersListFull s.assignedRouterKeys,
          (crRound hav table radiusKm (crAvailable routersListFull s.assignedRouterKeys)
            s.unassignedTargets).map Prod.fst,
          (crRound hav table radiusKm (crAvailable routersListFull s.assignedRouterKeys)
            s.unassignedTargets).map (fun p => p.2.bsName)⟩ ::
        (crLoopFuel hav table radiusKm routersListFull fuel
          ⟨crNextUnassigned s.unassignedTargets
              ((crRound hav table radiusKm (crAvailable routersListFull s.assignedRouterKeys)
                s.unassignedTargets).map (fun p => p.2.bsName)),
            crCommit (crRound hav table radiusKm
              (crAvailable routersListFull s.assignedRouterKeys) s.unassignedTargets)
              s.finalResults,
            s.assignedRouterKeys ++
              (crRound hav table radiusKm (crAvailable routersListFull s.assignedRouterKeys)
                s.unassignedTargets).map Prod.fst⟩).1,
        (crLoopFuel hav table radiusKm routersListFull fuel
          ⟨crNextUnassigned s.unassignedTargets
              ((crRound hav table radiusKm (crAvailable routersListFull s.assignedRouterKeys)
                s.unassignedTargets).map (fun p => p.2.bsName)),
            crCommit (crRound hav table radiusKm
              (crAvailable routersListFull s.assignedRouterKeys) s.unassignedTargets)
              s.finalResults,
            s.assignedRouterKeys ++
              (crRound hav table radiusKm (crAvailable routersListFull s.assignedRouterKeys)
                s.unassignedTargets).map Prod.fst⟩).2)

/-- Deletion of the temporary `Router_Key` and `Distance` dict keys before the
results are returned. -/
def stripTemp {K : Type} (r : AssignResult K) : AssignResult K :=
  { r with routerKey := none, distance := ⊤ }

/-- The failure record appended for each target still unassigned when the loop
ends. -/
def notAssignedResult {K : Type} (t : Target K) : AssignResult K :=
  ⟨t.name, t.lat, t.lon, none, none, .notAssignedAfterLoop, none, ⊤⟩

/-- The executed-round trace of the conflict-resolution loop. -/
def crTrace {K : Type} [LinearOrder K]
    (hav : K → K → K → K → K) (table : (K × K) → List (K × K) → Option (List K))
    (targetStationsRaw : List (Target K)) (routersListFull : List (Router K))
    (radiusKm : K) : List (RoundInfo K) :=
  (crLoopFuel hav table radiusKm routersListFull (targetStationsRaw.length + 1)
    ⟨targetStationsRaw, [], []⟩).1

/-- The final loop state of the conflict-resolution loop. -/
def crFinalState {K : Type} [LinearOrder K]
    (hav : K → K → K → K → K) (table : (K × K) → List (K × K) → Option (List K))
    (targetStationsRaw : List (Target K)) (routersListFull : List (Router K))
    (radiusKm : K) : CRState K :=
  (crLoopFuel hav table radiusKm routersListFull (targetStationsRaw.length + 1)
    ⟨targetStationsRaw, [], []⟩).2

/-- Embedding of `run_conflict_resolution_assignment` from
`batch_routing_plan_v2.py` (unique-assignment mode): run the loop, collect the
committed `final_results` values, append a `Not Assigned after Loop` record per
remaining unassigned target, and strip the temporary keys. -/
def run_conflict_resolution_assignment {K : Type} [LinearOrder K]
    (hav : K → K → K → K → K) (table : (K × K) → List (K × K) → Option (List K))
    (targetStationsRaw : List (Target K)) (routersListFull : List (Router K))
    (radiusKm : K) : List (AssignResult K) :=
  let s := crFinalState hav table targetStationsRaw routersListFull radiusKm
  ((s.finalResults.map Prod.snd) ++ s.unassignedTargets.map notAssignedResult).map stripTemp

/-- The simple (non-unique) mode of `main` in `batch_routing_plan_v2.py`: one
`find_best_router_for_target` call per target, temporary keys deleted, results
appended in order. -/
def simple_mode_results {K : Type} [LinearOrder K]
    (hav : K → K → K → K → K) (table : (K × K) → List (K × K) → Option (List K))
    (targetStationsRaw : List (Target K)) (routersListFull : List (Router K))
    (radiusKm : K) : List (AssignResult K) :=
  targetStationsRaw.map (fun t =>
    stripTemp (find_best_router_for_target hav table t.name t.lat t.lon
      routersListFull radiusKm))

end BatchV2

namespace BatchV2

/-- A generic left-fold invariant principle. -/
lemma foldl_inv {α σ : Type} (P : σ → Prop) (step : σ → α → σ) (l : List α)
    (init : σ) (h0 : P init) (hstep : ∀ s a, a ∈ l → P s → P (step s a)) :
    P (l.foldl step init) := by
  induction l generalizing init with
  | nil => exact h0
  | cons a l ih =>
    exact ih (step init a) (hstep init a (List.mem_cons_self a l) h0)
      (fun s b hb hs => hstep s b (List.mem_cons_of_mem a hb) hs)

lemma find_nearest_router_name_mem {K : Type} [LinearOrder K]
    (table : (K × K) → List (K × K) → Option (List K))
    (targetBsLat targetBsLon : K) (routersList : List (Router K))
    (info : BestRouterInfo K)
    (h : find_nearest_router_by_osrm_route_table table targetBsLat targetBsLon
      routersList = some info) :
    info.name ∈ routersList.map Router.name := by
  unfold find_nearest_router_by_osrm_route_table at h
  rcases htab : table (targetBsLon, targetBsLat)
      (routersList.map (fun r => (r.lon, r.lat))) with _ | distancesKmList
  · rw [htab] at h
    dsimp only at h
    exact absurd h (by simp)
  · rw [htab] at h
    dsimp only at h
    have hinv := foldl_inv
      (fun (st : WithTop K × Option (BestRouterInfo K)) =>
        st.2 = none ∨ ∃ i, st.2 = some i ∧ i.name ∈ routersList.map Router.name)
      (fun st p =>
        if (p.1 : WithTop K) < st.1 then
          ((p.1 : WithTop K),
            some ⟨p.2.name, p.2.lat, p.2.lon, p.2.rtype, p.2.priority, p.2.siteId, p.1⟩)
        else st)
      (distancesKmList.zip routersList) ((⊤ : WithTop K), none)
      (Or.inl rfl) ?_
    · rcases hinv with h2 | ⟨i, h2, h3⟩
      · rw [h] at h2; exact absurd h2 (by simp)
      · rw [h] at h2
        have hinj : info = i := by injection h2
        rw [hinj]
        exact h3
    · intro st p hp hP
      dsimp only
      by_cases hlt : ((p.1 : WithTop K) < st.1)
      · rw [if_pos hlt]
        right
        refine ⟨_, rfl, ?_⟩
        exact List.mem_map_of_mem Router.name (List.of_mem_zip hp).2
      · rw [if_neg hlt]
        exact hP

lemma find_best_router_for_target_bsName {K : Type} [LinearOrder K]
    (hav : K → K → K → K → K) (table : (K × K) → List (K × K) → Option (List K))
    (bsName : String) (bsLat bsLon : K)
    (routersListFull : List (Router K)) (radiusKm : K) :
    (find_best_router_for_target hav table bsName bsLat bsLon routersListFull
      radiusKm).bsName = bsName := by
  unfold find_best_router_for_target
  split
  · rfl
  · split <;> rfl

lemma find_best_router_for_target_empty {K : Type} [LinearOrder K]
    (hav : K → K → K → K → K) (table : (K × K) → List (K × K) → Option (List K))
    (bsName : String) (bsLat bsLon : K)
    (routersListFull : List (Router K)) (radiusKm : K)
    (h : filter_routers_by_radius hav bsLat bsLon routersListFull radiusKm = []) :
    find_best_router_for_target hav table bsName bsLat bsLon routersListFull radiusKm =
      ⟨bsName, bsLat, bsLon, none, none, .noRouterInRadius, none, ⊤⟩ := by
  unfold find_best_router_for_target
  rw [if_pos h]

lemma find_best_router_for_target_failed {K : Type} [LinearOrder K]
    (hav : K → K → K → K → K) (table : (K × K) → List (K × K) → Option (List K))
    (bsName : String) (bsLat bsLon : K)
    (routersListFull : List (Router K)) (radiusKm : K)
    (h1 : filter_routers_by_radius hav bsLat bsLon routersListFull radiusKm ≠ [])
    (h2 : find_nearest_router_by_osrm_route_table table bsLat bsLon
      (filter_routers_by_radius hav bsLat bsLon routersListFull radiusKm) = none) :
    find_best_router_for_target hav table bsName bsLat bsLon routersListFull radiusKm =
      ⟨bsName, bsLat, bsLon, none, none, .osrmRouteFailed, none, ⊤⟩ := by
  unfold find_best_router_for_target
  rw [if_neg h1, h2]

lemma find_best_router_for_target_success {K : Type} [LinearOrder K]
    (hav : K → K → K → K → K) (table : (K × K) → List (K × K) → Option (List K))
    (bsName : String) (bsLat bsLon : K)
    (routersListFull : List (Router K)) (radiusKm : K) (info : BestRouterInfo K)
    (h1 : filter_routers_by_radius hav bsLat bsLon routersListFull radiusKm ≠ [])
    (h2 : find_nearest_router_by_osrm_route_table table bsLat bsLon
      (filter_routers_by_radius hav bsLat bsLon routersListFull radiusKm) = some info) :
    find_best_router_for_target hav table bsName bsLat bsLon routersListFull radiusKm =
      ⟨bsName, bsLat, bsLon, some info, some info.distanceKm, .success,
        some info.name, (info.distanceKm : WithTop K)⟩ := by
  unfold find_best_router_for_target
  rw [if_neg h1, h2]

/-- Any successful result names a router drawn from the supplied router list and
carries its full information. -/
lemma find_best_router_for_target_success_shape {K : Type} [LinearOrder K]
    (hav : K → K → K → K → K) (table : (K × K) → List (K × K) → Option (List K))
    (bsName : String) (bsLat bsLon : K)
    (routersListFull : List (Router K)) (radiusKm : K)
    (h : (find_best_router_for_target hav table bsName bsLat bsLon routersListFull
      radiusKm).status = .success) :
    ∃ info : BestRouterInfo K,
      find_best_router_for_target hav table bsName bsLat bsLon routersListFull radiusKm =
        ⟨bsName, bsLat, bsLon, some info, some info.distanceKm, .success,
          some info.name, (info.distanceKm : WithTop K)⟩ ∧
      info.name ∈ routersListFull.map Router.name := by
  by_cases h1 : filter_routers_by_radius hav bsLat bsLon routersListFull radiusKm = []
  · rw [find_best_router_for_target_empty hav table bsName bsLat bsLon
      routersListFull radiusKm h1] at h
    exact absurd h (by simp)
  · rcases h2 : find_nearest_router_by_osrm_route_table table bsLat bsLon
      (filter_routers_by_radius hav bsLat bsLon routersListFull radiusKm) with _ | info
    · rw [find_best_router_for_target_failed hav table bsName bsLat bsLon
        routersListFull radiusKm h1 h2] at h
      exact absurd h (by simp)
    · refine ⟨info, find_best_router_for_target_success hav table bsName bsLat bsLon
        routersListFull radiusKm info h1 h2, ?_⟩
      have hmem := find_nearest_router_name_mem table bsLat bsLon _ info h2
      rcases List.mem_map.mp hmem with ⟨r, hr, hrn⟩
      exact hrn ▸ List.mem_map_of_mem Router.name
        (filter_routers_by_radius_subset hav bsLat bsLon routersListFull radiusKm r hr)

end BatchV2

/-- C5: in simple (non-unique) mode every target receives exactly one assignment
record, in input order and named after the target (no target is dropped); a
target whose radius pre-filter yields no candidate gets status
`No router in radius` with distance `'N/A'`, and a target whose matrix-based
search fails or yields no best router gets status `OSRM Route Failed` with
distance `'N/A'`. -/
theorem C5_simple_mode_error_handling {K : Type} [LinearOrder K]
    (hav : K → K → K → K → K) (table : (K × K) → List (K × K) → Option (List K))
    (targetStationsRaw : List (BatchV2.Target K))
    (routersListFull : List (BatchV2.Router K)) (radiusKm : K) :
    (BatchV2.simple_mode_results hav table targetStationsRaw routersListFull
      radiusKm).length = targetStationsRaw.length ∧
    BatchV2.statusText .noRouterInRadius = "No router in radius" ∧
    BatchV2.statusText .osrmRouteFailed = "OSRM Route Failed" ∧
    ∀ i (hi : i < targetStationsRaw.length)
      (hi2 : i < (BatchV2.simple_mode_results hav table targetStationsRaw
        routersListFull radiusKm).length),
      ((BatchV2.simple_mode_results hav table targetStationsRaw routersListFull
          radiusKm).get ⟨i, hi2⟩).bsName = (targetStationsRaw.get ⟨i, hi⟩).name ∧
      (BatchV2.filter_routers_by_radius hav (targetStationsRaw.get ⟨i, hi⟩).lat
          (targetStationsRaw.get ⟨i, hi⟩).lon routersListFull radiusKm = [] →
        ((BatchV2.simple_mode_results hav table targetStationsRaw routersListFull
            radiusKm).get ⟨i, hi2⟩).status = .noRouterInRadius ∧
        ((BatchV2.simple_mode_results hav table targetStationsRaw routersListFull
            radiusKm).get ⟨i, hi2⟩).routeDistanceKm = none) ∧
      (BatchV2.filter_routers_by_radius hav (targetStationsRaw.get ⟨i, hi⟩).lat
          (targetStationsRaw.get ⟨i, hi⟩).lon routersListFull radiusKm ≠ [] →
        BatchV2.find_nearest_router_by_osrm_route_table table
          (targetStationsRaw.get ⟨i, hi⟩).lat (targetStationsRaw.get ⟨i, hi⟩).lon
          (BatchV2.filter_routers_by_radius hav (targetStationsRaw.get ⟨i, hi⟩).lat
            (targetStationsRaw.get ⟨i, hi⟩).lon routersListFull radiusKm) = none →
        ((BatchV2.simple_mode_results hav table targetStationsRaw routersListFull
            radiusKm).get ⟨i, hi2⟩).status = .osrmRouteFailed ∧
        ((BatchV2.simple_mode_results hav table targetStationsRaw routersListFull
            radiusKm).get ⟨i, hi2⟩).routeDistanceKm = none) := by
  refine ⟨by simp [BatchV2.simple_mode_results], rfl, rfl, ?_⟩
  intro i hi hi2
  have hget : (BatchV2.simple_mode_results hav table targetStationsRaw routersListFull
      radiusKm).get ⟨i, hi2⟩ =
    BatchV2.stripTemp (BatchV2.find_best_router_for_target hav table
      (targetStationsRaw.get ⟨i, hi⟩).name (targetStationsRaw.get ⟨i, hi⟩).lat
      (targetStationsRaw.get ⟨i, hi⟩).lon routersListFull radiusKm) := by
    simp [BatchV2.simple_mode_results]
  refine ⟨?_, ?_, ?_⟩
  · rw [hget]
    exact BatchV2.find_best_router_for_target_bsName hav table _ _ _ _ _
  · intro hfe
    rw [hget, BatchV2.find_best_router_for_target_empty hav table _ _ _ _ _ hfe]
    exact ⟨rfl, rfl⟩
  · intro hfne hnone
    rw [hget, BatchV2.find_best_router_for_target_failed hav table _ _ _ _ _ hfne hnone]
    exact ⟨rfl, rfl⟩

/-- Witness for C5 at concrete rational inputs: with no router in radius the
single target is marked `No router in radius`, and with a failing matrix oracle
a target with a candidate router is marked `OSRM Route Failed`; both runs keep
one record per target. -/
theorem C5_simple_mode_error_handling_witness :
    ((0 : Nat) < 1 ∧
      BatchV2.filter_routers_by_radius (fun _ _ _ _ => (5 : ℚ)) 0 0
        [⟨"R", 0, 0, "t", 1, "s"⟩] 1 = [] ∧
      ((BatchV2.simple_mode_results (fun _ _ _ _ => (5 : ℚ))
          (fun _ _ => none) [⟨"T", 0, 0⟩] [⟨"R", 0, 0, "t", 1, "s"⟩] 1).get
        ⟨0, by decide⟩).status = .noRouterInRadius) ∧
    ((0 : Nat) < 1 ∧
      BatchV2.filter_routers_by_radius (fun _ _ _ _ => (0 : ℚ)) 0 0
        [⟨"R", 0, 0, "t", 1, "s"⟩] 1 ≠ [] ∧
      ((BatchV2.simple_mode_results (fun _ _ _ _ => (0 : ℚ))
          (fun _ _ => none) [⟨"T", 0, 0⟩] [⟨"R", 0, 0, "t", 1, "s"⟩] 1).get
        ⟨0, by decide⟩).status = .osrmRouteFailed) := by
  constructor
  · refine ⟨by decide, by decide, ?_⟩
    exact ((C5_simple_mode_error_handling (fun _ _ _ _ => (5 : ℚ)) (fun _ _ => none)
      [⟨"T", 0, 0⟩] [⟨"R", 0, 0, "t", 1, "s"⟩] 1).2.2.2 0 (by decide)
      (by decide)).2.1 (by decide) |>.1
  · refine ⟨by decide, by decide, ?_⟩
    exact ((C5_simple_mode_error_handling (fun _ _ _ _ => (0 : ℚ)) (fun _ _ => none)
      [⟨"T", 0, 0⟩] [⟨"R", 0, 0, "t", 1, "s"⟩] 1).2.2.2 0 (by decide)
      (by decide)).2.2 (by decide) (by decide) |>.1

namespace Geospatial

/-- A child geometry of a `MultiGeometry` element: a LineString carrying its
(already parsed) `lon, lat` coordinate list, or any other geometry kind (which
`_scan_kml_node` skips).  Coordinate-text parsing (`parse_coords_text`) is
abstracted: each geometry node carries the parsed list the source would obtain
from its `coordinates.text`. -/
inductive KGeom where
  | lineString (coords : List (ℚ × ℚ))
  | otherGeom
  deriving DecidableEq

/-- The geometry attached to a Placemark as `_scan_kml_node` inspects it: the
`hasattr(node, "LineString")` branch, the `elif hasattr(node, "MultiGeometry")`
branch, or neither. -/
inductive PGeom where
  | noGeometry
  | lineString (coords : List (ℚ × ℚ))
  | multiGeometry (geoms : List KGeom)
  deriving DecidableEq

/-- A KML node as traversed by `_scan_kml_node`: containers (`Document`,
`Folder`) with an optional name text and children, Placemarks with an optional
name text and a geometry, or any other element (ignored by the scan). -/
inductive KmlNode where
  | document (name : Option String) (children : List KmlNode)
  | folder (name : Option String) (children : List KmlNode)
  | placemark (name : Option String) (geom : PGeom)
  | other

/-- Container display name:
`node.name.text.strip() if hasattr(node, "name") and node.name.text else "Unnamed"`
(a missing or empty name text gives the literal `"Unnamed"`). -/
def containerName : Option String → String
  | some s => if s = "" then "Unnamed" else s.trim
  | none => "Unnamed"

/-- Path joining: `f"{current_path}/{name}" if current_path else name`. -/
def childPath (currentPath nm : String) : String :=
  if currentPath = "" then nm else currentPath ++ "/" ++ nm

/-- The coordinates contributed by one `MultiGeometry` child: a LineString child
extends `all_coords` with its parsed coordinates, any other child contributes
nothing. -/
def kgeomLineCoords : KGeom → List (ℚ × ℚ)
  | .lineString coords => coords
  | .otherGeom => []

/-- The `all_coords` list collected for a Placemark: a direct LineString gives
its coordinate list; a MultiGeometry concatenates the coordinate lists of its
LineString children in document order; otherwise nothing. -/
def placemarkCoords : PGeom → List (ℚ × ℚ)
  | .noGeometry => []
  | .lineString coords => coords
  | .multiGeometry geoms =>
    geoms.foldl (fun allCoords g => allCoords ++ kgeomLineCoords g) []

mutual

/-- Embedding of `_scan_kml_node` from `scripts/libs/geospatial_tools.py`:
recursive scan accumulating `(full_name, all_coords)` routes; a Placemark whose
collected coordinate list is empty appends nothing. -/
def scanKmlNode : KmlNode → String → List (String × List (ℚ × ℚ)) →
    List (String × List (ℚ × ℚ))
  | .document nm children, currentPath, routes =>
    scanKmlNodes children (childPath currentPath (containerName nm)) routes
  | .folder nm children, currentPath, routes =>
    scanKmlNodes children (childPath currentPath (containerName nm)) routes
  | .placemark nm geom, currentPath, routes =>
    if placemarkCoords geom = [] then routes
    else routes ++ [(childPath currentPath (nm.getD "NoName"), placemarkCoords geom)]
  | .other, _, routes => routes

/-- Scan of a child list in document order. -/
def scanKmlNodes : List KmlNode → String → List (String × List (ℚ × ℚ)) →
    List (String × List (ℚ × ℚ))
  | [], _, routes => routes
  | c :: rest, currentPath, routes =>
    scanKmlNodes rest currentPath (scanKmlNode c currentPath routes)

end

/-- Embedding of `extract_routes_from_kml`: scan each child of the parsed KML
root with an empty path and an initially empty route list. -/
def extract_routes_from_kml (rootChildren : List KmlNode) :
    List (String × List (ℚ × ℚ)) :=
  scanKmlNodes rootChildren "" []

lemma foldl_append_map_join {α β : Type} (f : α → List β) (l : List α)
    (acc : List β) :
    l.foldl (fun acc g => acc ++ f g) acc = acc ++ (l.map f).flatten := by
  induction l generalizing acc with
  | nil => simp
  | cons a l ih => simp [ih, List.append_assoc]

lemma placemarkCoords_multi (geoms : List KGeom) :
    placemarkCoords (.multiGeometry geoms) = (geoms.map kgeomLineCoords).flatten := by
  unfold placemarkCoords
  simpa using foldl_append_map_join kgeomLineCoords geoms []

end Geospatial

/-- C7: extracting a KML document whose single Placemark holds a MultiGeometry
yields exactly one route whose coordinate list is the concatenation, in document
order, of the coordinate lists of the LineString children (non-LineString
children contribute nothing), under the document-path-qualified placemark name —
unless that concatenation is empty, in which case the Placemark yields no route
at all. -/
theorem C7_kml_multigeometry_merge (docName pmName : Option String)
    (geoms : List Geospatial.KGeom) :
    Geospatial.extract_routes_from_kml
        [.document docName [.placemark pmName (.multiGeometry geoms)]] =
      if (geoms.map Geospatial.kgeomLineCoords).flatten = [] then []
      else
        [(Geospatial.childPath (Geospatial.containerName docName)
            (pmName.getD "NoName"),
          (geoms.map Geospatial.kgeomLineCoords).flatten)] := by
  unfold Geospatial.extract_routes_from_kml
  rw [Geospatial.scanKmlNodes, Geospatial.scanKmlNodes, Geospatial.scanKmlNode,
    Geospatial.scanKmlNodes, Geospatial.scanKmlNodes, Geospatial.scanKmlNode,
    Geospatial.placemarkCoords_multi]
  have hpath : Geospatial.childPath "" (Geospatial.containerName docName) =
      Geospatial.containerName docName := by
    unfold Geospatial.childPath
    rw [if_pos rfl]
  rw [hpath]
  split
  · rfl
  · simp

namespace BatchV2

lemma assocFind_eq_none_iff {A : Type} (m : List (String × A)) (k : String) :
    assocFind m k = none ↔ k ∉ m.map Prod.fst := by
  induction m with
  | nil => simp [assocFind]
  | cons e rest ih =>
    rcases e with ⟨k2, v⟩
    by_cases h : k2 = k
    · subst h
      simp [assocFind]
    · simp [assocFind, h, ih, Ne.symm h]

lemma mem_assocReplace {A : Type} (m : List (String × A)) (k : String) (v : A)
    (p : String × A) (hp : p ∈ assocReplace m k v) : p ∈ m ∨ p = (k, v) := by
  induction m with
  | nil => simp [assocReplace] at hp
  | cons e rest ih =>
    rcases e with ⟨k2, v2⟩
    by_cases h : k2 = k
    · rw [assocReplace, if_pos h] at hp
      rcases List.mem_cons.mp hp with h2 | h2
      · right; exact h2
      · left; exact List.mem_cons_of_mem _ h2
    · rw [assocReplace, if_neg h] at hp
      rcases List.mem_cons.mp hp with h2 | h2
      · left; exact h2 ▸ List.mem_cons_self _ _
      · rcases ih h2 with h3 | h3
        · left; exact List.mem_cons_of_mem _ h3
        · right; exact h3

lemma map_fst_assocReplace {A : Type} (m : List (String × A)) (k : String) (v : A)
    (hk : k ∈ m.map Prod.fst) :
    (assocReplace m k v).map Prod.fst = m.map Prod.fst := by
  induction m with
  | nil => simp at hk
  | cons e rest ih =>
    rcases e with ⟨k2, v2⟩
    by_cases h : k2 = k
    · rw [assocReplace, if_pos h]
      simp [h]
    · rw [assocReplace, if_neg h]
      have hk2 : k ∈ rest.map Prod.fst := by
        rcases List.mem_cons.mp hk with h2 | h2
        · exact absurd h2.symm h
        · exact h2
      simp [ih hk2]

lemma filterMap_assocReplace_subset {A β : Type} (g : A → Option β)
    (m : List (String × A)) (k : String) (v : A) (x : β)
    (hx : x ∈ (assocReplace m k v).filterMap (fun p => g p.2)) :
    x ∈ m.filterMap (fun p => g p.2) ∨ g v = some x := by
  rcases List.mem_filterMap.mp hx with ⟨p, hp, hgp⟩
  rcases mem_assocReplace m k v p hp with h | h
  · left; exact List.mem_filterMap.mpr ⟨p, h, hgp⟩
  · right; rw [h] at hgp; exact hgp

lemma filterMap_assocReplace_nodup {A β : Type} (g : A → Option β)
    (m : List (String × A)) (k : String) (v : A)
    (hm : (m.filterMap (fun p => g p.2)).Nodup)
    (hv : ∀ y, g v = some y → y ∉ m.filterMap (fun p => g p.2)) :
    ((assocReplace m k v).filterMap (fun p => g p.2)).Nodup := by
  induction m with
  | nil => simp [assocReplace]
  | cons e rest ih =>
    rcases e with ⟨k2, v2⟩
    by_cases h : k2 = k
    · rw [assocReplace, if_pos h]
      rcases hgv : g v with _ | y
      · simp only [List.filterMap_cons, hgv]
        rcases hg2 : g v2 with _ | y2
        · simpa only [List.filterMap_cons, hg2] using hm
        · simp only [List.filterMap_cons, hg2] at hm
          exact (List.nodup_cons.mp hm).2
      · have hy := hv y hgv
        simp only [List.filterMap_cons, hgv]
        rcases hg2 : g v2 with _ | y2
        · simp only [List.filterMap_cons, hg2] at hm hy
          exact List.nodup_cons.mpr ⟨hy, hm⟩
        · simp only [List.filterMap_cons, hg2] at hm hy
          have hm2 := List.nodup_cons.mp hm
          exact List.nodup_cons.mpr
            ⟨fun hmem => hy (List.mem_cons_of_mem _ hmem), hm2.2⟩
    · rw [assocReplace, if_neg h]
      rcases hg2 : g v2 with _ | y2
      · simp only [List.filterMap_cons, hg2] at hm ⊢
        refine ih hm ?_
        intro y hgy
        have := hv y hgy
        simpa only [List.filterMap_cons, hg2] using this
      · simp only [List.filterMap_cons, hg2] at hm ⊢
        have hm2 := List.nodup_cons.mp hm
        refine List.nodup_cons.mpr ⟨?_, ih hm2.2 ?_⟩
        · intro hmem
          rcases filterMap_assocReplace_subset g rest k v y2 hmem with h2 | h2
          · exact hm2.1 h2
          · have := hv y2 h2
            simp only [List.filterMap_cons, hg2] at this
            exact this (List.mem_cons_self _ _)
        · intro y hgy hmem
          have := hv y hgy
          simp only [List.filterMap_cons, hg2] at this
          exact this (List.mem_cons_of_mem _ hmem)

lemma insertAssoc_of_not_mem {A : Type} (m : List (String × A)) (k : String) (v : A)
    (hk : k ∉ m.map Prod.fst) : insertAssoc m k v = m ++ [(k, v)] := by
  unfold insertAssoc
  rw [(assocFind_eq_none_iff m k).mpr hk]

lemma mem_insertAssoc {A : Type} (m : List (String × A)) (k : String) (v : A)
    (p : String × A) (hp : p ∈ insertAssoc m k v) : p ∈ m ∨ p = (k, v) := by
  unfold insertAssoc at hp
  cases hfind : assocFind m k with
  | none =>
    rw [hfind] at hp
    dsimp only at hp
    rcases List.mem_append.mp hp with h | h
    · left; exact h
    · right; simpa using h
  | some v0 =>
    rw [hfind] at hp
    dsimp only at hp
    exact mem_assocReplace m k v p hp

lemma map_fst_insertAssoc {A : Type} (m : List (String × A)) (k : String) (v : A) :
    (insertAssoc m k v).map Prod.fst = m.map Prod.fst ∨
      (insertAssoc m k v).map Prod.fst = m.map Prod.fst ++ [k] := by
  unfold insertAssoc
  cases hfind : assocFind m k with
  | none => right; simp
  | some v0 =>
    left
    apply map_fst_assocReplace
    by_contra hk
    rw [(assocFind_eq_none_iff m k).mpr hk] at hfind
    exact absurd hfind (by simp)

lemma map_fst_insertAssoc_nodup {A : Type} (m : List (String × A)) (k : String)
    (v : A) (hm : (m.map Prod.fst).Nodup) :
    ((insertAssoc m k v).map Prod.fst).Nodup := by
  unfold insertAssoc
  cases hfind : assocFind m k with
  | none =>
    have hk := (assocFind_eq_none_iff m k).mp hfind
    simp only [List.map_append, List.map_cons, List.map_nil]
    rw [List.nodup_append]
    refine ⟨hm, by simp, ?_⟩
    intro a ha hb
    rw [List.mem_singleton] at hb
    subst hb
    exact hk ha
  | some v0 =>
    have hk : k ∈ m.map Prod.fst := by
      by_contra hk
      rw [(assocFind_eq_none_iff m k).mpr hk] at hfind
      exact absurd hfind (by simp)
    dsimp only
    rw [map_fst_assocReplace m k v hk]
    exact hm

lemma filterMap_insertAssoc_subset {A β : Type} (g : A → Option β)
    (m : List (String × A)) (k : String) (v : A) (x : β)
    (hx : x ∈ (insertAssoc m k v).filterMap (fun p => g p.2)) :
    x ∈ m.filterMap (fun p => g p.2) ∨ g v = some x := by
  rcases List.mem_filterMap.mp hx with ⟨p, hp, hgp⟩
  rcases mem_insertAssoc m k v p hp with h | h
  · left; exact List.mem_filterMap.mpr ⟨p, h, hgp⟩
  · right; rw [h] at hgp; exact hgp

lemma filterMap_insertAssoc_nodup {A β : Type} (g : A → Option β)
    (m : List (String × A)) (k : String) (v : A)
    (hm : (m.filterMap (fun p => g p.2)).Nodup)
    (hv : ∀ y, g v = some y → y ∉ m.filterMap (fun p => g p.2)) :
    ((insertAssoc m k v).filterMap (fun p => g p.2)).Nodup := by
  unfold insertAssoc
  cases hfind : assocFind m k with
  | none =>
    dsimp only
    rw [List.filterMap_append]
    cases hgv : g v with
    | none => simpa [List.filterMap_cons, hgv] using hm
    | some y =>
      rw [List.nodup_append]
      refine ⟨hm, by simp [List.filterMap_cons, hgv], ?_⟩
      intro a ha hb
      simp only [List.filterMap_cons, hgv, List.filterMap_nil,
        List.mem_singleton] at hb
      subst hb
      exact hv a hgv ha
  | some v0 => exact filterMap_assocReplace_nodup g m k v hm hv

lemma mem_updatePotential {K : Type} [LinearOrder K]
    (m : List (String × AssignResult K)) (k : String) (res : AssignResult K)
    (p : String × AssignResult K) (hp : p ∈ updatePotential m k res) :
    p ∈ m ∨ p = (k, res) := by
  unfold updatePotential at hp
  cases hfind : assocFind m k with
  | none =>
    rw [hfind] at hp
    dsimp only at hp
    rcases List.mem_append.mp hp with h | h
    · left; exact h
    · right; simpa using h
  | some existing =>
    rw [hfind] at hp
    dsimp only at hp
    by_cases hlt : res.distance < existing.distance
    · rw [if_pos hlt] at hp
      exact mem_assocReplace m k res p hp
    · rw [if_neg hlt] at hp
      left; exact hp

lemma map_fst_updatePotential {K : Type} [LinearOrder K]
    (m : List (String × AssignResult K)) (k : String) (res : AssignResult K) :
    (updatePotential m k res).map Prod.fst = m.map Prod.fst ∨
      (updatePotential m k res).map Prod.fst = m.map Prod.fst ++ [k] := by
  unfold updatePotential
  cases hfind : assocFind m k with
  | none => right; simp
  | some existing =>
    have hk : k ∈ m.map Prod.fst := by
      by_contra hk
      rw [(assocFind_eq_none_iff m k).mpr hk] at hfind
      exact absurd hfind (by simp)
    dsimp only
    by_cases hlt : res.distance < existing.distance
    · rw [if_pos hlt]
      left; exact map_fst_assocReplace m k res hk
    · rw [if_neg hlt]
      left; rfl

lemma map_fst_updatePotential_nodup {K : Type} [LinearOrder K]
    (m : List (String × AssignResult K)) (k : String) (res : AssignResult K)
    (hm : (m.map Prod.fst).Nodup) :
    ((updatePotential m k res).map Prod.fst).Nodup := by
  unfold updatePotential
  cases hfind : assocFind m k with
  | none =>
    have hk := (assocFind_eq_none_iff m k).mp hfind
    simp only [List.map_append, List.map_cons, List.map_nil]
    rw [List.nodup_append]
    refine ⟨hm, by simp, ?_⟩
    intro a ha hb
    rw [List.mem_singleton] at hb
    subst hb
    exact hk ha
  | some existing =>
    have hk : k ∈ m.map Prod.fst := by
      by_contra hk
      rw [(assocFind_eq_none_iff m k).mpr hk] at hfind
      exact absurd hfind (by simp)
    dsimp only
    by_cases hlt : res.distance < existing.distance
    · rw [if_pos hlt, map_fst_assocReplace m k res hk]
      exact hm
    · rw [if_neg hlt]
      exact hm

end BatchV2

namespace BatchV2

lemma mem_dedupFAux {α : Type} [DecidableEq α] :
    ∀ (l seen : List α) (a : α), a ∈ dedupFAux l seen ↔ a ∈ l ∧ a ∉ seen := by
  intro l
  induction l with
  | nil => intro seen a; simp [dedupFAux]
  | cons x rest ih =>
    intro seen a
    rw [dedupFAux]
    by_cases hx : x ∈ seen
    · rw [if_pos hx, ih]
      constructor
      · rintro ⟨h1, h2⟩
        exact ⟨List.mem_cons_of_mem _ h1, h2⟩
      · rintro ⟨h1, h2⟩
        rcases List.mem_cons.mp h1 with rfl | h1
        · exact absurd hx h2
        · exact ⟨h1, h2⟩
    · rw [if_neg hx]
      by_cases hax : a = x
      · subst hax
        simp [hx]
      · constructor
        · intro h
          rcases List.mem_cons.mp h with h | h
          · exact absurd h hax
          · obtain ⟨h1, h2⟩ := (ih (x :: seen) a).mp h
            exact ⟨List.mem_cons_of_mem _ h1,
              fun hm => h2 (List.mem_cons_of_mem _ hm)⟩
        · rintro ⟨h1, h2⟩
          rcases List.mem_cons.mp h1 with h1 | h1
          · exact absurd h1 hax
          · refine List.mem_cons_of_mem _ ((ih (x :: seen) a).mpr ⟨h1, ?_⟩)
            intro hm
            rcases List.mem_cons.mp hm with h3 | h3
            · exact hax h3
            · exact h2 h3

lemma mem_dedupF {α : Type} [DecidableEq α] (l : List α) (a : α) :
    a ∈ dedupF l ↔ a ∈ l := by
  unfold dedupF
  rw [mem_dedupFAux]
  simp

lemma dedupFAux_length_le {α : Type} [DecidableEq α] :
    ∀ (l seen : List α), (dedupFAux l seen).length ≤ l.length := by
  intro l
  induction l with
  | nil => intro seen; simp [dedupFAux]
  | cons x rest ih =>
    intro seen
    rw [dedupFAux]
    by_cases hx : x ∈ seen
    · rw [if_pos hx]
      exact Nat.le_succ_of_le (ih seen)
    · rw [if_neg hx]
      simp only [List.length_cons]
      exact Nat.succ_le_succ (ih (x :: seen))

lemma dedupF_length_le {α : Type} [DecidableEq α] (l : List α) :
    (dedupF l).length ≤ l.length := dedupFAux_length_le l []

lemma dedupFAux_eq_self {α : Type} [DecidableEq α] :
    ∀ (l seen : List α), l.Nodup → (∀ a ∈ l, a ∉ seen) → dedupFAux l seen = l := by
  intro l
  induction l with
  | nil => intro seen _ _; rfl
  | cons x rest ih =>
    intro seen hnd hseen
    rw [dedupFAux, if_neg (hseen x (List.mem_cons_self _ _))]
    have h2 := List.nodup_cons.mp hnd
    rw [ih (x :: seen) h2.2 ?_]
    intro a ha
    rw [List.mem_cons]
    rintro (h3 | h3)
    · exact h2.1 (h3 ▸ ha)
    · exact hseen a (List.mem_cons_of_mem _ ha) h3

lemma dedupF_eq_self_of_nodup {α : Type} [DecidableEq α] (l : List α)
    (h : l.Nodup) : dedupF l = l :=
  dedupFAux_eq_self l [] h (by simp)

lemma length_filter_lt_of_mem {α : Type} (p : α → Bool) (l : List α) (a : α)
    (ha : a ∈ l) (hpa : p a = false) : (l.filter p).length < l.length := by
  induction l with
  | nil => simp at ha
  | cons x rest ih =>
    rcases List.mem_cons.mp ha with rfl | ha2
    · rw [List.filter_cons_of_neg (by simp [hpa])]
      simp only [List.length_cons]
      exact Nat.lt_succ_of_le (List.length_filter_le p rest)
    · cases hx : p x
      · rw [List.filter_cons_of_neg (by simp [hx])]
        simp only [List.length_cons]
        exact Nat.lt_succ_of_le (List.length_filter_le p rest)
      · rw [List.filter_cons_of_pos (by simp [hx])]
        simp only [List.length_cons]
        exact Nat.succ_lt_succ (ih ha2)

/-- Every entry of a round's potential-assignment map is a successful
`find_best_router_for_target` result for one of the processed targets, keyed by
the name of a router from the available pool. -/
lemma crRound_entries {K : Type} [LinearOrder K]
    (hav : K → K → K → K → K) (table : (K × K) → List (K × K) → Option (List K))
    (radiusKm : K) (availableRouters : List (Router K))
    (unassignedTargets : List (Target K)) :
    ∀ p ∈ crRound hav table radiusKm availableRouters unassignedTargets,
      ∃ t ∈ unassignedTargets, ∃ info : BestRouterInfo K,
        info.name ∈ availableRouters.map Router.name ∧ p.1 = info.name ∧
        p.2 = ⟨t.name, t.lat, t.lon, some info, some info.distanceKm, .success,
          some info.name, (info.distanceKm : WithTop K)⟩ := by
  unfold crRound
  refine foldl_inv
    (fun (m : List (String × AssignResult K)) => ∀ p ∈ m,
      ∃ t ∈ unassignedTargets, ∃ info : BestRouterInfo K,
        info.name ∈ availableRouters.map Router.name ∧ p.1 = info.name ∧
        p.2 = ⟨t.name, t.lat, t.lon, some info, some info.distanceKm, .success,
          some info.name, (info.distanceKm : WithTop K)⟩)
    _ _ _ ?_ ?_
  · intro p hp
    simp at hp
  · intro m t ht hP p hp
    by_cases hg : (find_best_router_for_target hav table t.name t.lat t.lon
        availableRouters radiusKm).status = .success ∧
        truthyKey (find_best_router_for_target hav table t.name t.lat t.lon
          availableRouters radiusKm).routerKey
    · rw [if_pos hg] at hp
      rcases mem_updatePotential _ _ _ p hp with h | h
      · exact hP p h
      · obtain ⟨info, heq, hmem⟩ := find_best_router_for_target_success_shape hav table
          t.name t.lat t.lon availableRouters radiusKm hg.1
        refine ⟨t, ht, info, hmem, ?_, ?_⟩
        · rw [h]
          dsimp only
          rw [heq]
          rfl
        · rw [h]
          dsimp only
          rw [heq]
    · rw [if_neg hg] at hp
      exact hP p hp

end BatchV2

namespace BatchV2

/-- The router name an assignment row claims: present exactly on `Success` rows
(failure rows carry `'N/A'` in the router columns, modelled by `none`). -/
def successName {K : Type} (r : AssignResult K) : Option String :=
  if r.status = .success then r.nearest.map BestRouterInfo.name else none

/-- The claimed router names of the `final_results` map. -/
def successNamesFR {K : Type} (fr : List (String × AssignResult K)) : List String :=
  fr.filterMap (fun p => successName p.2)

/-- The claimed router names of a result-row list. -/
def successNamesRows {K : Type} (rows : List (AssignResult K)) : List String :=
  rows.filterMap successName

lemma successName_stripTemp {K : Type} (r : AssignResult K) :
    successName (stripTemp r) = successName r := rfl

lemma crAvailable_name_not_assigned {K : Type} (routersListFull : List (Router K))
    (assignedRouterKeys : List String) (n : String)
    (h : n ∈ (crAvailable routersListFull assignedRouterKeys).map Router.name) :
    n ∉ assignedRouterKeys := by
  rcases List.mem_map.mp h with ⟨r, hr, rfl⟩
  have := (List.mem_filter.mp hr).2
  simpa using this

lemma crRound_keys_nodup {K : Type} [LinearOrder K]
    (hav : K → K → K → K → K) (table : (K × K) → List (K × K) → Option (List K))
    (radiusKm : K) (availableRouters : List (Router K))
    (unassignedTargets : List (Target K)) :
    ((crRound hav table radiusKm availableRouters unassignedTargets).map
      Prod.fst).Nodup := by
  unfold crRound
  refine foldl_inv
    (fun (m : List (String × AssignResult K)) => (m.map Prod.fst).Nodup)
    _ _ _ (by simp) ?_
  intro m t ht hP
  by_cases hg : (find_best_router_for_target hav table t.name t.lat t.lon
      availableRouters radiusKm).status = .success ∧
      truthyKey (find_best_router_for_target hav table t.name t.lat t.lon
        availableRouters radiusKm).routerKey
  · rw [if_pos hg]
    exact map_fst_updatePotential_nodup _ _ _ hP
  · rw [if_neg hg]
    exact hP

lemma crCommit_cons {K : Type} (p : String × AssignResult K)
    (rest fr : List (String × AssignResult K)) :
    crCommit (p :: rest) fr = crCommit rest (insertAssoc fr p.2.bsName p.2) := rfl

/-- Committing a round's potential map preserves the no-duplicate-claims
invariant: the new claimed names are exactly the (fresh, pairwise-distinct)
round keys. -/
lemma crCommit_inv {K : Type} [LinearOrder K] :
    ∀ (entries fr : List (String × AssignResult K)) (assigned : List String),
      (successNamesFR fr).Nodup →
      (∀ n ∈ successNamesFR fr, n ∈ assigned) →
      (entries.map Prod.fst).Nodup →
      (∀ p ∈ entries, successName p.2 = some p.1 ∧ p.1 ∉ assigned) →
      (successNamesFR (crCommit entries fr)).Nodup ∧
        ∀ n ∈ successNamesFR (crCommit entries fr),
          n ∈ assigned ++ entries.map Prod.fst := by
  intro entries
  induction entries with
  | nil =>
    intro fr assigned h1 h2 _ _
    refine ⟨h1, ?_⟩
    intro n hn
    exact List.mem_append_left _ (h2 n hn)
  | cons e rest ih =>
    intro fr assigned h1 h2 h3 h4
    rcases e with ⟨k, v⟩
    have hv : successName v = some k := (h4 (k, v) (List.mem_cons_self _ _)).1
    have hka : k ∉ assigned := (h4 (k, v) (List.mem_cons_self _ _)).2
    rw [crCommit_cons]
    have hfresh : ∀ y, successName v = some y → y ∉ successNamesFR fr := by
      intro y hy hmem
      rw [hv] at hy
      have : k = y := by injection hy
      subst this
      exact hka (h2 k hmem)
    have h1b : (successNamesFR (insertAssoc fr v.bsName v)).Nodup :=
      filterMap_insertAssoc_nodup successName fr v.bsName v h1 hfresh
    have h2b : ∀ n ∈ successNamesFR (insertAssoc fr v.bsName v),
        n ∈ assigned ++ [k] := by
      intro n hn
      rcases filterMap_insertAssoc_subset successName fr v.bsName v n hn with h | h
      · exact List.mem_append_left _ (h2 n h)
      · rw [hv] at h
        have : k = n := by injection h
        subst this
        exact List.mem_append_right _ (List.mem_singleton.mpr rfl)
    have h3b : (rest.map Prod.fst).Nodup := by
      simp only [List.map_cons] at h3
      exact (List.nodup_cons.mp h3).2
    have hknotrest : k ∉ rest.map Prod.fst := by
      simp only [List.map_cons] at h3
      exact (List.nodup_cons.mp h3).1
    have h4b : ∀ p ∈ rest, successName p.2 = some p.1 ∧ p.1 ∉ assigned ++ [k] := by
      intro p hp
      refine ⟨(h4 p (List.mem_cons_of_mem _ hp)).1, ?_⟩
      intro hmem
      rcases List.mem_append.mp hmem with h | h
      · exact (h4 p (List.mem_cons_of_mem _ hp)).2 h
      · rw [List.mem_singleton] at h
        exact hknotrest (h ▸ List.mem_map_of_mem Prod.fst hp)
    obtain ⟨hc1, hc2⟩ := ih (insertAssoc fr v.bsName v) (assigned ++ [k]) h1b h2b h3b h4b
    refine ⟨hc1, ?_⟩
    intro n hn
    have := hc2 n hn
    simpa [List.append_assoc] using this

/-- Along the whole conflict-resolution loop, the claimed router names of
`final_results` stay duplicate-free and inside `assigned_router_keys`. -/
lemma crLoopFuel_successNames {K : Type} [LinearOrder K]
    (hav : K → K → K → K → K) (table : (K × K) → List (K × K) → Option (List K))
    (radiusKm : K) (routersListFull : List (Router K)) :
    ∀ (fuel : Nat) (s : CRState K),
      (successNamesFR s.finalResults).Nodup →
      (∀ n ∈ successNamesFR s.finalResults, n ∈ s.assignedRouterKeys) →
      (successNamesFR
        (crLoopFuel hav table radiusKm routersListFull fuel s).2.finalResults).Nodup ∧
      ∀ n ∈ successNamesFR
          (crLoopFuel hav table radiusKm routersListFull fuel s).2.finalResults,
        n ∈ (crLoopFuel hav table radiusKm routersListFull fuel s).2.assignedRouterKeys := by
  intro fuel
  induction fuel with
  | zero =>
    intro s h1 h2
    rw [crLoopFuel]
    exact ⟨h1, h2⟩
  | succ fuel ih =>
    intro s h1 h2
    rw [crLoopFuel]
    by_cases hu : s.unassignedTargets = []
    · rw [if_pos hu]; exact ⟨h1, h2⟩
    · rw [if_neg hu]
      by_cases hava : crAvailable routersListFull s.assignedRouterKeys = []
      · rw [if_pos hava]; exact ⟨h1, h2⟩
      · rw [if_neg hava]
        by_cases hpm : crRound hav table radiusKm
            (crAvailable routersListFull s.assignedRouterKeys) s.unassignedTargets = []
        · rw [if_pos hpm]; exact ⟨h1, h2⟩
        · rw [if_neg hpm]
          dsimp only
          have hent : ∀ p ∈ crRound hav table radiusKm
              (crAvailable routersListFull s.assignedRouterKeys) s.unassignedTargets,
              successName p.2 = some p.1 ∧ p.1 ∉ s.assignedRouterKeys := by
            intro p hp
            obtain ⟨t, ht, info, hmem, hk, hval⟩ := crRound_entries hav table radiusKm
              _ _ p hp
            constructor
            · rw [hval, hk]
              rfl
            · rw [hk]
              exact crAvailable_name_not_assigned routersListFull
                s.assignedRouterKeys info.name hmem
          obtain ⟨hc1, hc2⟩ := crCommit_inv _ s.finalResults s.assignedRouterKeys h1 h2
            (crRound_keys_nodup hav table radiusKm _ _) hent
          exact ih _ hc1 hc2

end BatchV2

namespace BatchV2

/-- A router key that is already assigned never reappears in the available pool
of any executed round of the remaining loop. -/
lemma crLoopFuel_assigned_not_available {K : Type} [LinearOrder K]
    (hav : K → K → K → K → K) (table : (K × K) → List (K × K) → Option (List K))
    (radiusKm : K) (routersListFull : List (Router K)) :
    ∀ (fuel : Nat) (s : CRState K) (k : String), k ∈ s.assignedRouterKeys →
      ∀ info ∈ (crLoopFuel hav table radiusKm routersListFull fuel s).1,
        k ∉ info.availableRouters.map Router.name := by
  intro fuel
  induction fuel with
  | zero =>
    intro s k hk info hinfo
    rw [crLoopFuel] at hinfo
    simp at hinfo
  | succ fuel ih =>
    intro s k hk info hinfo
    rw [crLoopFuel] at hinfo
    by_cases hu : s.unassignedTargets = []
    · rw [if_pos hu] at hinfo; simp at hinfo
    · rw [if_neg hu] at hinfo
      by_cases hava : crAvailable routersListFull s.assignedRouterKeys = []
      · rw [if_pos hava] at hinfo; simp at hinfo
      · rw [if_neg hava] at hinfo
        by_cases hpm : crRound hav table radiusKm
            (crAvailable routersListFull s.assignedRouterKeys) s.unassignedTargets = []
        · rw [if_pos hpm] at hinfo
          rw [List.mem_singleton] at hinfo
          subst hinfo
          intro hmem
          exact crAvailable_name_not_assigned routersListFull
            s.assignedRouterKeys k hmem hk
        · rw [if_neg hpm] at hinfo
          dsimp only at hinfo
          rcases List.mem_cons.mp hinfo with rfl | htail
          · intro hmem
            exact crAvailable_name_not_assigned routersListFull
              s.assignedRouterKeys k hmem hk
          · exact ih _ k (List.mem_append_left _ hk) info htail

/-- A router key committed by an executed round is excluded from the available
pool of every strictly later executed round. -/
lemma crLoopFuel_committed_excluded {K : Type} [LinearOrder K]
    (hav : K → K → K → K → K) (table : (K × K) → List (K × K) → Option (List K))
    (radiusKm : K) (routersListFull : List (Router K)) :
    ∀ (fuel : Nat) (s : CRState K) (i j : Nat), i < j →
      ∀ infoI infoJ : RoundInfo K,
        (crLoopFuel hav table radiusKm routersListFull fuel s).1.get? i = some infoI →
        (crLoopFuel hav table radiusKm routersListFull fuel s).1.get? j = some infoJ →
        ∀ k ∈ infoI.committedRouterKeys,
          k ∉ infoJ.availableRouters.map Router.name := by
  intro fuel
  induction fuel with
  | zero =>
    intro s i j hij infoI infoJ hgi hgj k hk
    rw [crLoopFuel] at hgi
    simp at hgi
  | succ fuel ih =>
    intro s i j hij infoI infoJ hgi hgj k hk
    rw [crLoopFuel] at hgi hgj
    by_cases hu : s.unassignedTargets = []
    · rw [if_pos hu] at hgi; simp at hgi
    · rw [if_neg hu] at hgi hgj
      by_cases hava : crAvailable routersListFull s.assignedRouterKeys = []
      · rw [if_pos hava] at hgi; simp at hgi
      · rw [if_neg hava] at hgi hgj
        by_cases hpm : crRound hav table radiusKm
            (crAvailable routersListFull s.assignedRouterKeys) s.unassignedTargets = []
        · rw [if_pos hpm] at hgi hgj
          have hi0 : i = 0 := by
            by_contra hne
            rcases Nat.exists_eq_succ_of_ne_zero hne with ⟨i2, rfl⟩
            simp at hgi
          have hj0 : j = 0 := by
            by_contra hne
            rcases Nat.exists_eq_succ_of_ne_zero hne with ⟨j2, rfl⟩
            simp at hgj
          omega
        · rw [if_neg hpm] at hgi hgj
          dsimp only at hgi hgj
          match j, hij with
          | j + 1, hij =>
            rw [List.get?_cons_succ] at hgj
            match i, hij with
            | 0, _ =>
              rw [List.get?_cons_zero] at hgi
              have hIeq : infoI = ⟨crAvailable routersListFull s.assignedRouterKeys,
                  (crRound hav table radiusKm
                    (crAvailable routersListFull s.assignedRouterKeys)
                    s.unassignedTargets).map Prod.fst,
                  (crRound hav table radiusKm
                    (crAvailable routersListFull s.assignedRouterKeys)
                    s.unassignedTargets).map (fun p => p.2.bsName)⟩ := by
                injection hgi.symm
              have hkmem : k ∈ (crRound hav table radiusKm
                  (crAvailable routersListFull s.assignedRouterKeys)
                  s.unassignedTargets).map Prod.fst := by
                rw [hIeq] at hk
                exact hk
              intro hmemJ
              refine crLoopFuel_assigned_not_available hav table radiusKm routersListFull
                fuel
                ⟨crNextUnassigned s.unassignedTargets
                    ((crRound hav table radiusKm
                      (crAvailable routersListFull s.assignedRouterKeys)
                      s.unassignedTargets).map (fun p => p.2.bsName)),
                  crCommit (crRound hav table radiusKm
                    (crAvailable routersListFull s.assignedRouterKeys)
                    s.unassignedTargets) s.finalResults,
                  s.assignedRouterKeys ++
                    (crRound hav table radiusKm
                      (crAvailable routersListFull s.assignedRouterKeys)
                      s.unassignedTargets).map Prod.fst⟩
                k (List.mem_append_right _ hkmem) infoJ ?_ hmemJ
              exact List.get?_mem hgj
            | i + 1, _ =>
              rw [List.get?_cons_succ] at hgi
              exact ih _ i j (by omega) infoI infoJ hgi hgj k hk

end BatchV2

namespace BatchV2

lemma successName_notAssigned {K : Type} (t : Target K) :
    successName (notAssignedResult t) = none := rfl

lemma run_successNames {K : Type} [LinearOrder K]
    (hav : K → K → K → K → K) (table : (K × K) → List (K × K) → Option (List K))
    (targetStationsRaw : List (Target K)) (routersListFull : List (Router K))
    (radiusKm : K) :
    successNamesRows (run_conflict_resolution_assignment hav table targetStationsRaw
        routersListFull radiusKm) =
      successNamesFR (crFinalState hav table targetStationsRaw routersListFull
        radiusKm).finalResults := by
  unfold run_conflict_resolution_assignment successNamesRows successNamesFR
  rw [List.filterMap_map, List.filterMap_append, List.filterMap_map, List.filterMap_map]
  have h2 : List.filterMap ((successName ∘ stripTemp) ∘ notAssignedResult)
      (crFinalState hav table targetStationsRaw routersListFull
        radiusKm).unassignedTargets = [] := by
    rw [List.filterMap_eq_nil_iff]
    intro t _
    rfl
  rw [h2, List.append_nil]
  rfl

end BatchV2

/-- C1: in unique-assignment mode, with pairwise-distinct router names, each
router name is claimed by at most one returned assignment row (the claimed
router names of the output have no duplicate), and a router committed in some
executed round is excluded from the available candidate pool of every later
executed round, hence never reassigned. -/
theorem C1_unique_assignment_invariant {K : Type} [LinearOrder K]
    (hav : K → K → K → K → K) (table : (K × K) → List (K × K) → Option (List K))
    (targetStationsRaw : List (BatchV2.Target K))
    (routersListFull : List (BatchV2.Router K)) (radiusKm : K)
    (hnodup : (routersListFull.map BatchV2.Router.name).Nodup) :
    (BatchV2.successNamesRows (BatchV2.run_conflict_resolution_assignment hav table
      targetStationsRaw routersListFull radiusKm)).Nodup ∧
    (∀ i j : Nat, i < j →
      ∀ infoI infoJ : BatchV2.RoundInfo K,
        (BatchV2.crTrace hav table targetStationsRaw routersListFull
          radiusKm).get? i = some infoI →
        (BatchV2.crTrace hav table targetStationsRaw routersListFull
          radiusKm).get? j = some infoJ →
        ∀ k ∈ infoI.committedRouterKeys,
          k ∉ infoJ.availableRouters.map BatchV2.Router.name) := by
  constructor
  · rw [BatchV2.run_successNames]
    have h := BatchV2.crLoopFuel_successNames hav table radiusKm routersListFull
      (targetStationsRaw.length + 1) ⟨targetStationsRaw, [], []⟩
      (by simp [BatchV2.successNamesFR]) (by simp [BatchV2.successNamesFR])
    exact h.1
  · intro i j hij infoI infoJ hgi hgj k hk
    exact BatchV2.crLoopFuel_committed_excluded hav table radiusKm routersListFull
      (targetStationsRaw.length + 1) ⟨targetStationsRaw, [], []⟩ i j hij
      infoI infoJ hgi hgj k hk

/-- Witness for C1 at a concrete rational input with one target and one
distinctly named router. -/
theorem C1_unique_assignment_invariant_witness :
    (([⟨"R", 0, 0, "t", 1, "s"⟩] : List (BatchV2.Router ℚ)).map
      BatchV2.Router.name).Nodup ∧
    (BatchV2.successNamesRows (BatchV2.run_conflict_resolution_assignment
      (fun _ _ _ _ => (0 : ℚ)) (fun _ dests => some (dests.map (fun _ => (1 : ℚ))))
      [⟨"T", 0, 0⟩] [⟨"R", 0, 0, "t", 1, "s"⟩] 1)).Nodup :=
  ⟨by decide,
    (C1_unique_assignment_invariant (fun _ _ _ _ => (0 : ℚ))
      (fun _ dests => some (dests.map (fun _ => (1 : ℚ))))
      [⟨"T", 0, 0⟩] [⟨"R", 0, 0, "t", 1, "s"⟩] 1 (by decide)).1⟩

namespace BatchV2

/-- If a round's potential map is non-empty, the next unassigned list is
strictly shorter than the current one: some processed target's name was newly
assigned, and it is removed from the (deduplicated) processed set. -/
lemma crNextUnassigned_lt {K : Type} [LinearOrder K]
    (hav : K → K → K → K → K) (table : (K × K) → List (K × K) → Option (List K))
    (radiusKm : K) (availableRouters : List (Router K))
    (unassignedTargets : List (Target K))
    (hpm : crRound hav table radiusKm availableRouters unassignedTargets ≠ []) :
    (crNextUnassigned unassignedTargets
        ((crRound hav table radiusKm availableRouters unassignedTargets).map
          (fun p => p.2.bsName))).length < unassignedTargets.length := by
  rcases List.exists_mem_of_ne_nil _ hpm with ⟨p, hp⟩
  obtain ⟨t, ht, info, _, _, hval⟩ :=
    crRound_entries hav table radiusKm availableRouters unassignedTargets p hp
  have htd : t ∈ dedupF unassignedTargets := (mem_dedupF _ _).mpr ht
  have hfalse : (fun t : Target K => decide (t.name ∉
      ((crRound hav table radiusKm availableRouters unassignedTargets).map
        (fun p => p.2.bsName)))) t = false := by
    simp only [decide_eq_false_iff_not, Decidable.not_not]
    refine List.mem_map.mpr ⟨p, hp, ?_⟩
    rw [hval]
  calc (crNextUnassigned unassignedTargets _).length
      < (dedupF unassignedTargets).length :=
        length_filter_lt_of_mem _ _ t htd hfalse
    _ ≤ unassignedTargets.length := dedupF_length_le _

/-- If a round's potential map is non-empty, the available-router pool of the
next round is strictly smaller: every newly assigned key names a router of the
current pool. -/
lemma crAvailable_lt {K : Type} [LinearOrder K]
    (hav : K → K → K → K → K) (table : (K × K) → List (K × K) → Option (List K))
    (radiusKm : K) (routersListFull : List (Router K))
    (assignedRouterKeys : List String) (unassignedTargets : List (Target K))
    (hpm : crRound hav table radiusKm (crAvailable routersListFull assignedRouterKeys)
      unassignedTargets ≠ []) :
    (crAvailable routersListFull (assignedRouterKeys ++
        (crRound hav table radiusKm (crAvailable routersListFull assignedRouterKeys)
          unassignedTargets).map Prod.fst)).length <
      (crAvailable routersListFull assignedRouterKeys).length := by
  rcases List.exists_mem_of_ne_nil _ hpm with ⟨p, hp⟩
  obtain ⟨t, ht, info, hmem, hk, _⟩ := crRound_entries hav table radiusKm
    (crAvailable routersListFull assignedRouterKeys) unassignedTargets p hp
  rcases List.mem_map.mp hmem with ⟨r0, hr0, hr0n⟩
  have hr0full : r0 ∈ routersListFull := (List.mem_filter.mp hr0).1
  have hsplit : crAvailable routersListFull (assignedRouterKeys ++
      (crRound hav table radiusKm (crAvailable routersListFull assignedRouterKeys)
        unassignedTargets).map Prod.fst) =
      (crAvailable routersListFull assignedRouterKeys).filter
        (fun r => decide (r.name ∉ assignedRouterKeys ++
          (crRound hav table radiusKm (crAvailable routersListFull assignedRouterKeys)
            unassignedTargets).map Prod.fst)) := by
    unfold crAvailable
    rw [List.filter_filter]
    apply List.filter_congr
    intro r _
    by_cases h2 : r.name ∈ assignedRouterKeys ++
        (crRound hav table radiusKm (crAvailable routersListFull assignedRouterKeys)
          unassignedTargets).map Prod.fst
    · simp [h2]
      tauto
    · have h1 : r.name ∉ assignedRouterKeys := by
        intro hmem2
        exact h2 (List.mem_append_left _ hmem2)
      simp [h1, h2]
  rw [hsplit]
  apply length_filter_lt_of_mem _ _ r0 hr0
  simp only [decide_eq_false_iff_not, Decidable.not_not]
  apply List.mem_append_right
  rw [hr0n, ← hk]
  exact List.mem_map_of_mem Prod.fst hp

/-- Round bound and stop conditions of the conflict-resolution loop: with
sufficient fuel, the number of executed rounds is at most
`min |unassigned| |available pool|`, and the loop ends because no target remains
unassigned, or no router remains available, or its last executed round
committed nothing. -/
lemma crLoopFuel_bound {K : Type} [LinearOrder K]
    (hav : K → K → K → K → K) (table : (K × K) → List (K × K) → Option (List K))
    (radiusKm : K) (routersListFull : List (Router K)) :
    ∀ (fuel : Nat) (s : CRState K), s.unassignedTargets.length < fuel →
      (crLoopFuel hav table radiusKm routersListFull fuel s).1.length ≤
        min s.unassignedTargets.length
          (crAvailable routersListFull s.assignedRouterKeys).length ∧
      ((crLoopFuel hav table radiusKm routersListFull fuel s).2.unassignedTargets = [] ∨
       crAvailable routersListFull
         (crLoopFuel hav table radiusKm routersListFull fuel s).2.assignedRouterKeys
         = [] ∨
       (∃ last : RoundInfo K,
         (crLoopFuel hav table radiusKm routersListFull fuel s).1.getLast? =
           some last ∧ last.committedRouterKeys = [])) := by
  intro fuel
  induction fuel with
  | zero =>
    intro s hfuel
    omega
  | succ fuel ih =>
    intro s hfuel
    rw [crLoopFuel]
    by_cases hu : s.unassignedTargets = []
    · rw [if_pos hu]
      exact ⟨by simp, Or.inl hu⟩
    · rw [if_neg hu]
      by_cases hava : crAvailable routersListFull s.assignedRouterKeys = []
      · rw [if_pos hava]
        exact ⟨by simp, Or.inr (Or.inl hava)⟩
      · rw [if_neg hava]
        by_cases hpm : crRound hav table radiusKm
            (crAvailable routersListFull s.assignedRouterKeys) s.unassignedTargets = []
        · rw [if_pos hpm]
          refine ⟨?_, Or.inr (Or.inr ⟨⟨crAvailable routersListFull s.assignedRouterKeys,
            [], []⟩, by simp, rfl⟩)⟩
          have h1 : 1 ≤ s.unassignedTargets.length :=
            List.length_pos.mpr hu
          have h2 : 1 ≤ (crAvailable routersListFull s.assignedRouterKeys).length :=
            List.length_pos.mpr hava
          simp only [List.length_singleton]
          omega
        · rw [if_neg hpm]
          dsimp only
          have hlt := crNextUnassigned_lt hav table radiusKm
            (crAvailable routersListFull s.assignedRouterKeys) s.unassignedTargets hpm
          have hrlt := crAvailable_lt hav table radiusKm routersListFull
            s.assignedRouterKeys s.unassignedTargets hpm
          obtain ⟨ihlen, ihstop⟩ := ih
            ⟨crNextUnassigned s.unassignedTargets
                ((crRound hav table radiusKm
                  (crAvailable routersListFull s.assignedRouterKeys)
                  s.unassignedTargets).map (fun p => p.2.bsName)),
              crCommit (crRound hav table radiusKm
                (crAvailable routersListFull s.assignedRouterKeys) s.unassignedTargets)
                s.finalResults,
              s.assignedRouterKeys ++
                (crRound hav table radiusKm
                  (crAvailable routersListFull s.assignedRouterKeys)
                  s.unassignedTargets).map Prod.fst⟩
            (by dsimp only; omega)
          constructor
          · simp only [List.length_cons]
            dsimp only at ihlen
            omega
          · rcases ihstop with h | h | ⟨last, hlast, hcomm⟩
            · exact Or.inl h
            · exact Or.inr (Or.inl h)
            · refine Or.inr (Or.inr ⟨last, ?_, hcomm⟩)
              have hne : (crLoopFuel hav table radiusKm routersListFull fuel
                  ⟨crNextUnassigned s.unassignedTargets
                      ((crRound hav table radiusKm
                        (crAvailable routersListFull s.assignedRouterKeys)
                        s.unassignedTargets).map (fun p => p.2.bsName)),
                    crCommit (crRound hav table radiusKm
                      (crAvailable routersListFull s.assignedRouterKeys)
                      s.unassignedTargets) s.finalResults,
                    s.assignedRouterKeys ++
                      (crRound hav table radiusKm
                        (crAvailable routersListFull s.assignedRouterKeys)
                        s.unassignedTargets).map Prod.fst⟩).1 ≠ [] := by
                intro hnil
                rw [hnil] at hlast
                simp at hlast
              rw [List.getLast?_cons, hlast]
              cases hcase : (crLoopFuel hav table radiusKm routersListFull fuel
                  ⟨crNextUnassigned s.unassignedTargets
                      ((crRound hav table radiusKm
                        (crAvailable routersListFull s.assignedRouterKeys)
                        s.unassignedTargets).map (fun p => p.2.bsName)),
                    crCommit (crRound hav table radiusKm
                      (crAvailable routersListFull s.assignedRouterKeys)
                      s.unassignedTargets) s.finalResults,
                    s.assignedRouterKeys ++
                      (crRound hav table radiusKm
                        (crAvailable routersListFull s.assignedRouterKeys)
                        s.unassignedTargets).map Prod.fst⟩).1 with
              | nil => exact absurd hcase hne
              | cons a l => rfl

end BatchV2

/-- C4: the unique-assignment conflict-resolution loop terminates on every
finite input: it executes at most `min |targets| |routers|` assignment rounds
(each continuing round strictly shrinks both the unassigned-target list and the
available-router pool), and it stops exactly because no target remains
unassigned, or no router remains available, or its last executed round
committed no new assignment. -/
theorem C4_conflict_resolution_terminates {K : Type} [LinearOrder K]
    (hav : K → K → K → K → K) (table : (K × K) → List (K × K) → Option (List K))
    (targetStationsRaw : List (BatchV2.Target K))
    (routersListFull : List (BatchV2.Router K)) (radiusKm : K) :
    (BatchV2.crTrace hav table targetStationsRaw routersListFull radiusKm).length ≤
      min targetStationsRaw.length routersListFull.length ∧
    ((BatchV2.crFinalState hav table targetStationsRaw routersListFull
        radiusKm).unassignedTargets = [] ∨
     BatchV2.crAvailable routersListFull
       (BatchV2.crFinalState hav table targetStationsRaw routersListFull
         radiusKm).assignedRouterKeys = [] ∨
     (∃ last : BatchV2.RoundInfo K,
       (BatchV2.crTrace hav table targetStationsRaw routersListFull
         radiusKm).getLast? = some last ∧ last.committedRouterKeys = [])) := by
  have h := BatchV2.crLoopFuel_bound hav table radiusKm routersListFull
    (targetStationsRaw.length + 1) ⟨targetStationsRaw, [], []⟩
    (by dsimp only; omega)
  have hinit : BatchV2.crAvailable routersListFull
      (⟨targetStationsRaw, [], []⟩ : BatchV2.CRState K).assignedRouterKeys =
      routersListFull := by
    unfold BatchV2.crAvailable
    apply List.filter_eq_self.mpr
    intro r _
    simp
  constructor
  · have h1 := h.1
    rw [hinit] at h1
    exact h1
  · exact h.2

namespace BatchV2

lemma map_bsName_eq_filterMap {K : Type} (m : List (String × AssignResult K)) :
    m.map (fun p => p.2.bsName) = m.filterMap (fun p => some p.2.bsName) := by
  induction m with
  | nil => rfl
  | cons e rest ih => simp [List.filterMap_cons, ih]

lemma bsNames_updatePotential_mem {K : Type} [LinearOrder K]
    (m : List (String × AssignResult K)) (k : String) (res : AssignResult K)
    (p : String × AssignResult K) (hp : p ∈ updatePotential m k res) :
    p.2.bsName ∈ m.map (fun q => q.2.bsName) ∨ p.2.bsName = res.bsName := by
  rcases mem_updatePotential m k res p hp with h | h
  · left; exact List.mem_map_of_mem _ h
  · right; rw [h]

lemma bsNames_updatePotential_nodup {K : Type} [LinearOrder K]
    (m : List (String × AssignResult K)) (k : String) (res : AssignResult K)
    (hm : (m.map (fun q => q.2.bsName)).Nodup)
    (hres : res.bsName ∉ m.map (fun q => q.2.bsName)) :
    ((updatePotential m k res).map (fun q => q.2.bsName)).Nodup := by
  rw [map_bsName_eq_filterMap] at hm ⊢
  rw [map_bsName_eq_filterMap] at hres
  unfold updatePotential
  cases hfind : assocFind m k with
  | none =>
    dsimp only
    rw [List.filterMap_append]
    rw [List.nodup_append]
    refine ⟨hm, by simp, ?_⟩
    intro a ha hb
    simp only [List.filterMap_cons, List.filterMap_nil, Option.mem_def,
      List.mem_singleton] at hb
    subst hb
    exact hres ha
  | some existing =>
    dsimp only
    by_cases hlt : res.distance < existing.distance
    · rw [if_pos hlt]
      refine filterMap_assocReplace_nodup (fun r => some r.bsName) m k res hm ?_
      intro y hy
      have : res.bsName = y := by injection hy
      subst this
      exact fun hmem => hres hmem
    · rw [if_neg hlt]
      exact hm

/-- A round over targets with pairwise-distinct names builds a potential map
whose entry target names are pairwise distinct and drawn from the processed
targets. -/
lemma crRound_bsNames {K : Type} [LinearOrder K]
    (hav : K → K → K → K → K) (table : (K × K) → List (K × K) → Option (List K))
    (radiusKm : K) (availableRouters : List (Router K)) :
    ∀ (unassignedTargets : List (Target K)),
      ((unassignedTargets.map Target.name).Nodup) →
      (((crRound hav table radiusKm availableRouters unassignedTargets).map
          (fun p => p.2.bsName)).Nodup ∧
        ∀ p ∈ crRound hav table radiusKm availableRouters unassignedTargets,
          p.2.bsName ∈ unassignedTargets.map Target.name) := by
  intro us
  induction us using List.reverseRecOn with
  | nil => intro _; exact ⟨by simp [crRound], by simp [crRound]⟩
  | append_singleton us t ih =>
    intro hnodup
    have hsplit : (us.map Target.name).Nodup ∧ t.name ∉ us.map Target.name := by
      rw [List.map_append, List.nodup_append] at hnodup
      refine ⟨hnodup.1, fun hmem => ?_⟩
      exact hnodup.2.2 hmem (by simp)
    obtain ⟨ihn, ihm⟩ := ih hsplit.1
    have hstep : crRound hav table radiusKm availableRouters (us ++ [t]) =
        (fun m (t : Target K) =>
          if (find_best_router_for_target hav table t.name t.lat t.lon availableRouters
                radiusKm).status = .success ∧
              truthyKey (find_best_router_for_target hav table t.name t.lat t.lon
                availableRouters radiusKm).routerKey then
            updatePotential m
              ((find_best_router_for_target hav table t.name t.lat t.lon availableRouters
                radiusKm).routerKey.getD "")
              (find_best_router_for_target hav table t.name t.lat t.lon availableRouters
                radiusKm)
          else m)
          (crRound hav table radiusKm availableRouters us) t := by
      unfold crRound
      rw [List.foldl_append]
      rfl
    rw [hstep]
    dsimp only
    by_cases hg : (find_best_router_for_target hav table t.name t.lat t.lon
        availableRouters radiusKm).status = .success ∧
        truthyKey (find_best_router_for_target hav table t.name t.lat t.lon
          availableRouters radiusKm).routerKey
    · rw [if_pos hg]
      have hbs : (find_best_router_for_target hav table t.name t.lat t.lon
          availableRouters radiusKm).bsName = t.name :=
        find_best_router_for_target_bsName hav table t.name t.lat t.lon
          availableRouters radiusKm
      have hfresh : (find_best_router_for_target hav table t.name t.lat t.lon
          availableRouters radiusKm).bsName ∉
          (crRound hav table radiusKm availableRouters us).map
            (fun p => p.2.bsName) := by
        rw [hbs]
        intro hmem
        rcases List.mem_map.mp hmem with ⟨p, hp, hpn⟩
        exact hsplit.2 (hpn ▸ ihm p hp)
      constructor
      · exact bsNames_updatePotential_nodup _ _ _ ihn hfresh
      · intro p hp
        rcases bsNames_updatePotential_mem _ _ _ p hp with h | h
        · rcases List.mem_map.mp h with ⟨q, hq, hqn⟩
          rw [List.map_append]
          exact List.mem_append_left _ (hqn ▸ ihm q hq)
        · rw [List.map_append, h, hbs]
          exact List.mem_append_right _ (by simp)
    · rw [if_neg hg]
      refine ⟨ihn, ?_⟩
      intro p hp
      rw [List.map_append]
      exact List.mem_append_left _ (ihm p hp)

end BatchV2

namespace BatchV2

lemma crCommit_keyinv {K : Type} [LinearOrder K] :
    ∀ (entries fr : List (String × AssignResult K)),
      (fr.map Prod.fst).Nodup → (∀ p ∈ fr, p.2.bsName = p.1) →
      ((crCommit entries fr).map Prod.fst).Nodup ∧
        ∀ p ∈ crCommit entries fr, p.2.bsName = p.1 := by
  intro entries
  induction entries with
  | nil => intro fr h1 h2; exact ⟨h1, h2⟩
  | cons e rest ih =>
    intro fr h1 h2
    rw [crCommit_cons]
    refine ih _ (map_fst_insertAssoc_nodup fr e.2.bsName e.2 h1) ?_
    intro p hp
    rcases mem_insertAssoc fr e.2.bsName e.2 p hp with h | h
    · exact h2 p h
    · rw [h]

lemma crLoopFuel_keys {K : Type} [LinearOrder K]
    (hav : K → K → K → K → K) (table : (K × K) → List (K × K) → Option (List K))
    (radiusKm : K) (routersListFull : List (Router K)) :
    ∀ (fuel : Nat) (s : CRState K),
      (s.finalResults.map Prod.fst).Nodup →
      (∀ p ∈ s.finalResults, p.2.bsName = p.1) →
      ((crLoopFuel hav table radiusKm routersListFull fuel
        s).2.finalResults.map Prod.fst).Nodup ∧
      ∀ p ∈ (crLoopFuel hav table radiusKm routersListFull fuel s).2.finalResults,
        p.2.bsName = p.1 := by
  intro fuel
  induction fuel with
  | zero => intro s h1 h2; rw [crLoopFuel]; exact ⟨h1, h2⟩
  | succ fuel ih =>
    intro s h1 h2
    rw [crLoopFuel]
    by_cases hu : s.unassignedTargets = []
    · rw [if_pos hu]; exact ⟨h1, h2⟩
    · rw [if_neg hu]
      by_cases hava : crAvailable routersListFull s.assignedRouterKeys = []
      · rw [if_pos hava]; exact ⟨h1, h2⟩
      · rw [if_neg hava]
        by_cases hpm : crRound hav table radiusKm
            (crAvailable routersListFull s.assignedRouterKeys) s.unassignedTargets = []
        · rw [if_pos hpm]; exact ⟨h1, h2⟩
        · rw [if_neg hpm]
          dsimp only
          obtain ⟨hc1, hc2⟩ := crCommit_keyinv
            (crRound hav table radiusKm
              (crAvailable routersListFull s.assignedRouterKeys) s.unassignedTargets)
            s.finalResults h1 h2
          exact ih _ hc1 hc2

lemma crCommit_append_of_fresh {K : Type} [LinearOrder K] :
    ∀ (entries fr : List (String × AssignResult K)),
      ((entries.map (fun p => p.2.bsName)).Nodup) →
      (∀ p ∈ entries, p.2.bsName ∉ fr.map Prod.fst) →
      crCommit entries fr = fr ++ entries.map (fun p => (p.2.bsName, p.2)) := by
  intro entries
  induction entries with
  | nil => intro fr _ _; simp [crCommit]
  | cons e rest ih =>
    intro fr h1 h2
    have h1b : e.2.bsName ∉ rest.map (fun p => p.2.bsName) ∧
        (rest.map (fun p => p.2.bsName)).Nodup := by
      rw [List.map_cons] at h1
      exact List.nodup_cons.mp h1
    rw [crCommit_cons,
      insertAssoc_of_not_mem fr e.2.bsName e.2 (h2 e (List.mem_cons_self _ _))]
    rw [ih (fr ++ [(e.2.bsName, e.2)]) h1b.2 ?_]
    · simp
    · intro p hp
      rw [List.map_append]
      intro hmem
      rcases List.mem_append.mp hmem with h | h
      · exact h2 p (List.mem_cons_of_mem _ hp) h
      · simp only [List.map_cons, List.map_nil, List.mem_singleton] at h
        exact h1b.1 (h ▸ List.mem_map_of_mem (fun q => q.2.bsName) hp)

lemma map_name_filter {K : Type} (l : List (Target K)) (q : String → Bool) :
    (l.filter (fun t => q t.name)).map Target.name = (l.map Target.name).filter q := by
  induction l with
  | nil => rfl
  | cons t rest ih =>
    cases hq : q t.name
    · rw [List.filter_cons_of_neg (by simp [hq]), List.map_cons,
        List.filter_cons_of_neg (by simp [hq]), ih]
    · rw [List.filter_cons_of_pos (by simp [hq]), List.map_cons, List.map_cons,
        List.filter_cons_of_pos (by simp [hq]), ih]

lemma perm_of_nodup_mem_iff {α : Type} [DecidableEq α] (l1 l2 : List α)
    (h1 : l1.Nodup) (h2 : l2.Nodup) (h : ∀ x, x ∈ l1 ↔ x ∈ l2) : l1.Perm l2 := by
  refine (h1.subperm ?_).antisymm (h2.subperm ?_)
  · intro x hx; exact (h x).mp hx
  · intro x hx; exact (h x).mpr hx

end BatchV2

namespace BatchV2

/-- With pairwise-distinct input names, the committed keys plus the remaining
unassigned names are a permutation of the names the loop started with. -/
lemma crLoopFuel_names_perm {K : Type} [LinearOrder K]
    (hav : K → K → K → K → K) (table : (K × K) → List (K × K) → Option (List K))
    (radiusKm : K) (routersListFull : List (Router K)) :
    ∀ (fuel : Nat) (s : CRState K),
      (s.finalResults.map Prod.fst ++ s.unassignedTargets.map Target.name).Nodup →
      ((crLoopFuel hav table radiusKm routersListFull fuel s).2.finalResults.map
          Prod.fst ++
        (crLoopFuel hav table radiusKm routersListFull fuel
          s).2.unassignedTargets.map Target.name).Perm
        (s.finalResults.map Prod.fst ++ s.unassignedTargets.map Target.name) := by
  intro fuel
  induction fuel with
  | zero => intro s _; rw [crLoopFuel]
  | succ fuel ih =>
    intro s hconcat
    rw [crLoopFuel]
    by_cases hu : s.unassignedTargets = []
    · rw [if_pos hu]
    · rw [if_neg hu]
      by_cases hava : crAvailable routersListFull s.assignedRouterKeys = []
      · rw [if_pos hava]
      · rw [if_neg hava]
        by_cases hpm : crRound hav table radiusKm
            (crAvailable routersListFull s.assignedRouterKeys) s.unassignedTargets = []
        · rw [if_pos hpm]
        · rw [if_neg hpm]
          dsimp only
          rw [List.nodup_append] at hconcat
          obtain ⟨hFR, hU, hdisj⟩ := hconcat
          have hUN : s.unassignedTargets.Nodup := hU.of_map
          obtain ⟨hpmN, hpmS⟩ := crRound_bsNames hav table radiusKm
            (crAvailable routersListFull s.assignedRouterKeys) s.unassignedTargets hU
          have hfresh : ∀ p ∈ crRound hav table radiusKm
              (crAvailable routersListFull s.assignedRouterKeys) s.unassignedTargets,
              p.2.bsName ∉ s.finalResults.map Prod.fst := by
            intro p hp hmem
            exact hdisj hmem (hpmS p hp)
          have hcommit := crCommit_append_of_fresh
            (crRound hav table radiusKm
              (crAvailable routersListFull s.assignedRouterKeys) s.unassignedTargets)
            s.finalResults hpmN hfresh
          have hkeys2 : (crCommit (crRound hav table radiusKm
              (crAvailable routersListFull s.assignedRouterKeys) s.unassignedTargets)
              s.finalResults).map Prod.fst =
              s.finalResults.map Prod.fst ++
              (crRound hav table radiusKm
                (crAvailable routersListFull s.assignedRouterKeys)
                s.unassignedTargets).map (fun p => p.2.bsName) := by
            rw [hcommit, List.map_append, List.map_map]
            rfl
          have hnext : (crNextUnassigned s.unassignedTargets
              ((crRound hav table radiusKm
                (crAvailable routersListFull s.assignedRouterKeys)
                s.unassignedTargets).map (fun p => p.2.bsName))).map Target.name =
              (s.unassignedTargets.map Target.name).filter
                (fun n => decide (n ∉ (crRound hav table radiusKm
                  (crAvailable routersListFull s.assignedRouterKeys)
                  s.unassignedTargets).map (fun p => p.2.bsName))) := by
            unfold crNextUnassigned
            rw [dedupF_eq_self_of_nodup _ hUN]
            exact map_name_filter s.unassignedTargets
              (fun n => decide (n ∉ (crRound hav table radiusKm
                (crAvailable routersListFull s.assignedRouterKeys)
                s.unassignedTargets).map (fun p => p.2.bsName)))
          have hinner : ((crRound hav table radiusKm
              (crAvailable routersListFull s.assignedRouterKeys)
              s.unassignedTargets).map (fun p => p.2.bsName) ++
              (s.unassignedTargets.map Target.name).filter
                (fun n => decide (n ∉ (crRound hav table radiusKm
                  (crAvailable routersListFull s.assignedRouterKeys)
                  s.unassignedTargets).map (fun p => p.2.bsName)))).Perm
              (s.unassignedTargets.map Target.name) := by
            have hfp := List.filter_append_perm
              (fun n => decide (n ∈ (crRound hav table radiusKm
                (crAvailable routersListFull s.assignedRouterKeys)
                s.unassignedTargets).map (fun p => p.2.bsName)))
              (s.unassignedTargets.map Target.name)
            have hnotc : (s.unassignedTargets.map Target.name).filter
                (fun n => decide (n ∉ (crRound hav table radiusKm
                  (crAvailable routersListFull s.assignedRouterKeys)
                  s.unassignedTargets).map (fun p => p.2.bsName))) =
                (s.unassignedTargets.map Target.name).filter
                (fun n => !(decide (n ∈ (crRound hav table radiusKm
                  (crAvailable routersListFull s.assignedRouterKeys)
                  s.unassignedTargets).map (fun p => p.2.bsName)))) := by
              apply List.filter_congr
              intro n _
              simp
            rw [hnotc]
            refine List.Perm.trans (List.Perm.append_right _ ?_) hfp
            apply perm_of_nodup_mem_iff _ _ hpmN (hU.filter _)
            intro x
            simp only [List.mem_filter, decide_eq_true_eq]
            constructor
            · intro hx
              refine ⟨?_, hx⟩
              rcases List.mem_map.mp hx with ⟨p, hp, hpn⟩
              exact hpn ▸ hpmS p hp
            · intro hx
              exact hx.2
          have hperm : ((crCommit (crRound hav table radiusKm
              (crAvailable routersListFull s.assignedRouterKeys) s.unassignedTargets)
              s.finalResults).map Prod.fst ++
              (crNextUnassigned s.unassignedTargets
                ((crRound hav table radiusKm
                  (crAvailable routersListFull s.assignedRouterKeys)
                  s.unassignedTargets).map (fun p => p.2.bsName))).map Target.name).Perm
              (s.finalResults.map Prod.fst ++ s.unassignedTargets.map Target.name) := by
            rw [hkeys2, hnext, List.append_assoc]
            exact List.Perm.append_left _ hinner
          have hnew : ((crCommit (crRound hav table radiusKm
              (crAvailable routersListFull s.assignedRouterKeys) s.unassignedTargets)
              s.finalResults).map Prod.fst ++
              (crNextUnassigned s.unassignedTargets
                ((crRound hav table radiusKm
                  (crAvailable routersListFull s.assignedRouterKeys)
                  s.unassignedTargets).map (fun p => p.2.bsName))).map
                Target.name).Nodup := by
            refine hperm.symm.nodup ?_
            rw [List.nodup_append]
            exact ⟨hFR, hU, hdisj⟩
          exact List.Perm.trans (ih _ hnew) hperm

end BatchV2

namespace BatchV2

lemma run_names {K : Type} [LinearOrder K]
    (hav : K → K → K → K → K) (table : (K × K) → List (K × K) → Option (List K))
    (targetStationsRaw : List (Target K)) (routersListFull : List (Router K))
    (radiusKm : K)
    (hkeyinv : ∀ p ∈ (crFinalState hav table targetStationsRaw routersListFull
      radiusKm).finalResults, p.2.bsName = p.1) :
    (run_conflict_resolution_assignment hav table targetStationsRaw routersListFull
        radiusKm).map (fun r => r.bsName) =
      (crFinalState hav table targetStationsRaw routersListFull
        radiusKm).finalResults.map Prod.fst ++
      (crFinalState hav table targetStationsRaw routersListFull
        radiusKm).unassignedTargets.map Target.name := by
  unfold run_conflict_resolution_assignment
  dsimp only
  rw [List.map_map, List.map_append, List.map_map, List.map_map]
  congr 1
  apply List.map_congr_left
  intro p hp
  exact hkeyinv p hp

end BatchV2

/-- C10 counterexample: two input targets that share the name `"A"` and are
never assigned (empty router list) each produce their own
`Not Assigned after Loop` output row, so the output has two rows with the same
target name — refuting the claim that the output contains at most one
assignment row per distinct target name. -/
theorem C10_counterexample :
    ¬ ((BatchV2.run_conflict_resolution_assignment (fun _ _ _ _ => (0 : ℚ))
        (fun _ _ => none) [⟨"A", 0, 0⟩, ⟨"A", 1, 1⟩] [] 1).map
      (fun r => r.bsName)).Nodup := by decide

/-- C10 (amended): the committed results are stored in a map keyed by target
name, so the committed (Success) rows have pairwise-distinct target names; when
all input target names are pairwise distinct, the output row names are exactly
a permutation of the input names (one row per input target); and two
same-named targets that both win routers in one round produce a single output
row, the later commit overwriting the earlier one — but targets left unassigned
each produce their own `Not Assigned after Loop` row, so the output can repeat
a name when duplicate-named targets remain unassigned. -/
theorem C10_rows_per_target_name {K : Type} [LinearOrder K]
    (hav : K → K → K → K → K) (table : (K × K) → List (K × K) → Option (List K))
    (targetStationsRaw : List (BatchV2.Target K))
    (routersListFull : List (BatchV2.Router K)) (radiusKm : K) :
    ((BatchV2.crFinalState hav table targetStationsRaw routersListFull
      radiusKm).finalResults.map (fun p => p.2.bsName)).Nodup ∧
    ((targetStationsRaw.map BatchV2.Target.name).Nodup →
      ((BatchV2.run_conflict_resolution_assignment hav table targetStationsRaw
        routersListFull radiusKm).map (fun r => r.bsName)).Perm
        (targetStationsRaw.map BatchV2.Target.name)) ∧
    ((BatchV2.run_conflict_resolution_assignment (fun _ _ _ _ => (0 : ℚ))
        (fun start _ => if start = ((0 : ℚ), (0 : ℚ)) then some [1, 2]
          else some [2, 1])
        [⟨"A", 0, 0⟩, ⟨"A", 1, 1⟩]
        [⟨"R1", 0, 0, "t", 1, "s"⟩, ⟨"R2", 0, 0, "t", 1, "s"⟩] 1).map
      (fun r => (r.bsName, BatchV2.statusText r.status))) =
      [("A", "Success")] := by
  obtain ⟨hkeys, hkeyinv⟩ := BatchV2.crLoopFuel_keys hav table radiusKm routersListFull
    (targetStationsRaw.length + 1) ⟨targetStationsRaw, [], []⟩ (by simp) (by simp)
  refine ⟨?_, ?_, by decide⟩
  · have : (BatchV2.crFinalState hav table targetStationsRaw routersListFull
        radiusKm).finalResults.map (fun p => p.2.bsName) =
        (BatchV2.crFinalState hav table targetStationsRaw routersListFull
          radiusKm).finalResults.map Prod.fst := by
      apply List.map_congr_left
      intro p hp
      exact hkeyinv p hp
    rw [this]
    exact hkeys
  · intro hn
    have hperm := BatchV2.crLoopFuel_names_perm hav table radiusKm routersListFull
      (targetStationsRaw.length + 1) ⟨targetStationsRaw, [], []⟩
      (by simpa using hn)
    rw [BatchV2.run_names hav table targetStationsRaw routersListFull radiusKm hkeyinv]
    simpa using hperm

/-- Witness for C10 at a concrete rational input with distinct target names. -/
theorem C10_rows_per_target_name_witness :
    (([⟨"A", 0, 0⟩] : List (BatchV2.Target ℚ)).map BatchV2.Target.name).Nodup ∧
    ((BatchV2.run_conflict_resolution_assignment (fun _ _ _ _ => (0 : ℚ))
        (fun _ _ => none) [⟨"A", 0, 0⟩] [] 1).map (fun r => r.bsName)).Perm
      (([⟨"A", 0, 0⟩] : List (BatchV2.Target ℚ)).map BatchV2.Target.name) :=
  ⟨by decide,
    (C10_rows_per_target_name (fun _ _ _ _ => (0 : ℚ)) (fun _ _ => none)
      [⟨"A", 0, 0⟩] [] 1).2.1 (by decide)⟩
